import Mathlib

/-!
# Verification development for `src/plugin/plugin_windows.go` and `src/net/file_windows.go`

The two Go files are embedded as pure Lean functions.  Every interaction with the
operating system is read from an explicit environment record (`World`, `NetWorld`)
and every externally visible step is written to an event trace, so that statements
about ordering ("publish, unlock, then initializer") and about resource handling
("closed exactly once") become statements about lists of events.

Go strings are byte sequences.  The only byte-level operations performed by the code
(`name[len(name)-4:] == ".dll"`, `symName[0] == '.'`, `symName[1:]`) look at ASCII
bytes, so on UTF-8 text they agree with the character-level operations used here.
-/

namespace GoPlugin

/-- Handles returned by `syscall.LoadLibrary`. -/
abbrev Handle := Nat

/-- Addresses of `Plugin` records on the heap (`*Plugin`). -/
abbrev Ptr := Nat

/-- Values of type `interface{}` stored in `Plugin.syms`.  The code only ever stores a
`uintptr` (`p.syms[symName] = symPC`); `nil` is the zero interface value that a map read
of an absent key yields. -/
inductive Symbol where
  | nil
  | uintptr (v : Nat)
  deriving DecidableEq, Repr

/-- Go maps with string keys, as association lists. -/
abbrev GoMap (V : Type) := List (String × V)

/-- Map read `m[k]` with presence information. -/
def GoMap.get {V : Type} (m : GoMap V) (k : String) : Option V :=
  List.lookup k m

/-- Builtin `delete(m, k)`. -/
def GoMap.delete {V : Type} (m : GoMap V) (k : String) : GoMap V :=
  m.filter (fun kv => !(kv.1 == k))

/-- Map write `m[k] = v`. -/
def GoMap.set {V : Type} (m : GoMap V) (k : String) (v : V) : GoMap V :=
  (k, v) :: GoMap.delete m k

/-- The fields of `Plugin` used by `plugin_windows.go`.  `loaded` is the channel
`loaded chan struct{}`; the only thing that ever happens to it is `close`, so it is
represented by the flag "has been closed". -/
structure Plugin where
  pluginpath : String
  loaded : Bool
  syms : GoMap Symbol
  deriving DecidableEq, Repr

/-- The package-level variables `pluginsMu` and `plugins`, together with the heap on
which `Plugin` records live.  A nil `plugins` map reads like an empty one, so both are
the empty list. -/
structure LoaderState where
  locked : Bool
  plugins : GoMap Ptr
  heap : List Plugin
  deriving DecidableEq, Repr

/-- An opened PE image (`*pe.File`): all the code asks of it is `ImportedSymbols`. -/
structure PEFile where
  importedSymbols : Except String (List String)

/-- The operating-system facts consulted by `open`.  `getProcAddress` returns the
`uintptr` result of `syscall.GetProcAddress`, which is `0` exactly when the lookup
fails; the code discards the accompanying `error`. -/
structure World where
  evalSymlinks : String → Except String String
  peOpen : String → Except String PEFile
  loadLibrary : String → Except String Handle
  getProcAddress : Handle → String → Nat

/-- Externally visible steps of `open`, in program order. -/
inductive Event where
  | evalSymlinks (name : String)
  | lock
  | unlock
  | recvLoaded (p : Ptr)
  | peOpen (path : String)
  | importedSymbols (path : String)
  | peClose (path : String)
  | loadLibrary (path : String)
  | publish (path : String) (p : Ptr)
  | getProcAddress (h : Handle) (name : String)
  | initCall (pc : Nat)
  | println (s : String)
  | closeLoaded (p : Ptr)
  deriving DecidableEq, Repr

/-- How a call ends: it returns `(*Plugin, error)`, it panics, or it blocks forever
(on `pluginsMu.Lock()` or on `<-p.loaded`; nothing else runs in this sequential model
that could release it). -/
inductive Outcome where
  | ret (p : Option Ptr) (err : Option String)
  | panic
  | blocked
  deriving DecidableEq, Repr

/-- Apply `f` to the record at address `p`. -/
def updateAt (f : Plugin → Plugin) : Ptr → List Plugin → List Plugin
  | _, [] => []
  | 0, r :: rs => f r :: rs
  | p + 1, r :: rs => r :: updateAt f p rs

/-- Statement `delete(p.syms, k)`. -/
def LoaderState.deleteSym (s : LoaderState) (p : Ptr) (k : String) : LoaderState :=
  { s with heap := updateAt (fun r => { r with syms := GoMap.delete r.syms k }) p s.heap }

/-- Statement `p.syms[k] = v`. -/
def LoaderState.setSym (s : LoaderState) (p : Ptr) (k : String) (v : Symbol) : LoaderState :=
  { s with heap := updateAt (fun r => { r with syms := GoMap.set r.syms k v }) p s.heap }

/-- Statement `close(p.loaded)` on a channel that is still open. -/
def LoaderState.closeLoaded (s : LoaderState) (p : Ptr) : LoaderState :=
  { s with heap := updateAt (fun r => { r with loaded := true }) p s.heap }

/-- Lines 50-52: `if len(name) > 4 && name[len(name)-4:] == ".dll" { name = name[:len(name)-4] }`. -/
def trimDll (name : String) : String :=
  if name.length > 4 ∧ name.data.drop (name.length - 4) = ['.', 'd', 'l', 'l'] then
    String.mk (name.data.take (name.length - 4))
  else name

/-- Lines 85-105, the loop `for _, symName := range names`.  `err` is the function-level
variable `err`, last assigned by `h, err := syscall.LoadLibrary(path)`; the loop tests it
but never assigns it, because the error of `GetProcAddress` goes to `_`.
The first component is `some o` when the loop leaves the function (the `return` on line 96,
or the index panic of `symName[0]` on an empty name) and `none` when it runs to the end.
The writes through `valp` on lines 98-103 touch the word after `symPC`, not `symPC`
itself, and are outside this model. -/
def symLoop (w : World) (h : Handle) (name : String) (p : Ptr) (err : Option String) :
    List String → LoaderState → Option Outcome × LoaderState × List Event
  | [], s => (none, s, [])
  | symName :: rest, s =>
    match symName.data with
    | [] => (some Outcome.panic, s, [Event.println symName])
    | c :: cs =>
      let isFunc := c == '.'
      let s1 := if isFunc then s.deleteSym p symName else s
      let symName1 := if isFunc then String.mk cs else symName
      let symNameStr := name ++ "." ++ symName1
      let symPC := w.getProcAddress h symNameStr
      match err with
      | some e =>
        (some (Outcome.ret none
            (some ("plugin.Open: could not find symbol " ++ symName1 ++ ": " ++ e))),
          s1, [Event.println symName, Event.getProcAddress h symNameStr])
      | none =>
        let r := symLoop w h name p err rest (s1.setSym p symName1 (Symbol.uintptr symPC))
        (r.1, r.2.1, Event.println symName :: Event.getProcAddress h symNameStr :: r.2.2)

/-- Lines 50-107 of `open`, entered with the registry lock held, after
`syscall.LoadLibrary` has succeeded with handle `h` (so `err == nil`): publish the
placeholder, unlock, run the initializer, fill the symbols, close `loaded`.
The fresh record is allocated at the next free heap address.  The initializer is foreign
code: its call is recorded as an event, and what it does is outside this model.
Closing an already closed channel panics. -/
def openLoaded (w : World) (name path : String) (names : List String) (h : Handle)
    (s : LoaderState) : Outcome × LoaderState × List Event :=
  let name1 := trimDll name
  let p : Ptr := s.heap.length
  let s1 : LoaderState :=
    { locked := false
      plugins := GoMap.set s.plugins path p
      heap := s.heap ++ [{ pluginpath := path, loaded := false, syms := [] }] }
  let initStr := name1 ++ ".init"
  let initFuncPC := w.getProcAddress h initStr
  let initEv := if initFuncPC ≠ 0 then [Event.initCall initFuncPC] else []
  let pre := [Event.publish path p, Event.unlock, Event.getProcAddress h initStr] ++ initEv
  match symLoop w h name1 p none names s1 with
  | (some o, s2, tr) => (o, s2, pre ++ tr)
  | (none, s2, tr) =>
    match s2.heap[p]? with
    | none => (Outcome.panic, s2, pre ++ tr)
    | some r =>
      if r.loaded then (Outcome.panic, s2, pre ++ tr)
      else (Outcome.ret (some p) none, s2.closeLoaded p, pre ++ tr ++ [Event.closeLoaded p])

/-- The function `open` of `plugin_windows.go` (`open` is a reserved word in Lean).
The result is the outcome of the call, the state it leaves and the events it performed.
`Lock` on a held mutex and `<-p.loaded` on an open channel block.  A registry entry whose
address holds no record cannot arise in Go; dereferencing it is answered with a panic. -/
def pluginOpen (w : World) (name : String) (s : LoaderState) :
    Outcome × LoaderState × List Event :=
  match w.evalSymlinks name with
  | Except.error _ =>
    (Outcome.ret none (some ("plugin.Open(" ++ name ++ "): EvalSymlinks failed")), s,
      [Event.evalSymlinks name])
  | Except.ok path =>
    if s.locked then (Outcome.blocked, s, [Event.evalSymlinks name])
    else
      let s1 := { s with locked := true }
      match s1.plugins.get path with
      | some p =>
        let s2 := { s1 with locked := false }
        match s2.heap[p]? with
        | none => (Outcome.panic, s2, [Event.evalSymlinks name, Event.lock, Event.unlock])
        | some r =>
          if r.loaded then
            (Outcome.ret (some p) none, s2,
              [Event.evalSymlinks name, Event.lock, Event.unlock, Event.recvLoaded p])
          else
            (Outcome.blocked, s2, [Event.evalSymlinks name, Event.lock, Event.unlock])
      | none =>
        match w.peOpen path with
        | Except.error e =>
          (Outcome.ret none (some ("plugin.Open: " ++ e)), { s1 with locked := false },
            [Event.evalSymlinks name, Event.lock, Event.peOpen path, Event.unlock])
        | Except.ok f =>
          match f.importedSymbols with
          | Except.error e =>
            (Outcome.ret none (some ("plugin.Open: " ++ e)), { s1 with locked := false },
              [Event.evalSymlinks name, Event.lock, Event.peOpen path,
                Event.importedSymbols path, Event.unlock])
          | Except.ok names =>
            match w.loadLibrary path with
            | Except.error e =>
              (Outcome.ret none (some ("plugin.Open: " ++ e)), { s1 with locked := false },
                [Event.evalSymlinks name, Event.lock, Event.peOpen path,
                  Event.importedSymbols path, Event.peClose path, Event.loadLibrary path,
                  Event.unlock])
            | Except.ok h =>
              let r := openLoaded w name path names h s1
              (r.1, r.2.1,
                [Event.evalSymlinks name, Event.lock, Event.peOpen path,
                  Event.importedSymbols path, Event.peClose path, Event.loadLibrary path]
                  ++ r.2.2)

/-- How a call of `lookup` ends: it returns `(Symbol, error)` or it panics. -/
inductive LookupOutcome where
  | ret (sym : Symbol) (err : Option String)
  | panic
  deriving DecidableEq, Repr

/-- The function `lookup`.  Dereferencing a pointer that addresses no record panics;
otherwise the map read `p.syms[symName]` yields the stored value, or the nil interface
when the key is absent, and the test `s != nil` selects the branch. -/
def lookup (heap : List Plugin) (p : Ptr) (symName : String) : LookupOutcome :=
  match heap[p]? with
  | none => LookupOutcome.panic
  | some r =>
    match (r.syms.get symName).getD Symbol.nil with
    | Symbol.nil =>
      LookupOutcome.ret Symbol.nil
        (some ("plugin: symbol " ++ symName ++ " not found in plugin " ++ r.pluginpath))
    | Symbol.uintptr v => LookupOutcome.ret (Symbol.uintptr v) none

/-- Whether the registry lock is held by the call after the events `tr`, given whether
it was held before them. -/
def lockHeld : List Event → Bool → Bool
  | [], b => b
  | Event.lock :: tr, _ => lockHeld tr true
  | Event.unlock :: tr, _ => lockHeld tr false
  | _ :: tr, b => lockHeld tr b

/-- Events of the symbol-filling loop. -/
def Event.isSymbolStep : Event → Bool
  | Event.println _ => true
  | Event.getProcAddress _ _ => true
  | _ => false

/-- Calls into the loaded module or into the OS symbol resolver: the initializer call
and every `GetProcAddress`. -/
def Event.isResolveOrInit : Event → Bool
  | Event.initCall _ => true
  | Event.getProcAddress _ _ => true
  | _ => false

/-- The parts of a record that the symbol loop never writes. -/
def Plugin.shell (r : Plugin) : String × Bool := (r.pluginpath, r.loaded)

/-- The events of `open` from the publication of the placeholder up to the start of the
symbol loop. -/
def publishedSteps (w : World) (name path : String) (h : Handle) (p : Ptr) : List Event :=
  [Event.publish path p, Event.unlock, Event.getProcAddress h (trimDll name ++ ".init")] ++
    (if w.getProcAddress h (trimDll name ++ ".init") ≠ 0 then
      [Event.initCall (w.getProcAddress h (trimDll name ++ ".init"))] else [])

/-- Events of a load attempt between the image parse and the failure return. -/
def Event.isFailedLoadStep (path : String) (e : Event) : Prop :=
  e = Event.importedSymbols path ∨ e = Event.peClose path ∨ e = Event.loadLibrary path ∨
    e = Event.unlock

/-- The key under which the symbol loop stores a listed name: the name itself, or the
name without its first character when that character is `.` (lines 87-91). -/
def symKey (symName : String) : String :=
  match symName.data with
  | [] => symName
  | c :: cs => if c == '.' then String.mk cs else symName

end GoPlugin

namespace GoNet

/-- OS handles (`syscall.Handle`); `f.Fd()` of the `*os.File` argument is one. -/
abbrev Handle := Nat

/-- The `syscall.Errno` values that occur.  The three named constants are declared in
package `syscall`, which is not part of the sources at hand; only their identity matters. -/
inductive Errno where
  | EWINDOWS
  | EPROTONOSUPPORT
  | EINVAL
  | other (code : Nat)
  deriving DecidableEq, Repr

/-- Go `error` values returned by the adoption functions: a bare `syscall.Errno`, the
wrapper built by `os.NewSyscallError(op, err)`, or any other error handed back by a
collaborator. -/
inductive GoError where
  | errno (e : Errno)
  | syscallError (op : String) (e : Errno)
  | other (msg : String)
  deriving DecidableEq, Repr

/-- The address-family constants assigned to `family` (declared in package `syscall`). -/
inductive Family where
  | AF_UNSPEC
  | AF_INET
  | AF_INET6
  deriving DecidableEq, Repr

/-- Dynamic type of a `syscall.Sockaddr` interface value: nil, one of the three pointer
types the type switch names, or anything else. -/
inductive Sockaddr where
  | nil
  | inet4 (port : Nat) (addr : List Nat)
  | inet6 (port : Nat) (zoneId : Nat) (addr : List Nat)
  | unix (name : String)
  | other (tag : Nat)
  deriving DecidableEq, Repr

/-- Dynamic type of a `net.Addr` interface value: nil, one of the four pointer types the
type switches name, or anything else (carrying what its `Network` method returns). -/
inductive Addr where
  | nil
  | tcp (ip : List Nat) (port : Nat)
  | udp (ip : List Nat) (port : Nat)
  | ip (ip : List Nat)
  | unix (name : String) (net : String)
  | other (network : String)
  deriving DecidableEq, Repr

/-- Method call `laddr.Network()`; on the nil interface it panics, rendered as `none`. -/
def Addr.network : Addr → Option String
  | Addr.nil => none
  | Addr.tcp _ _ => some "tcp"
  | Addr.udp _ _ => some "udp"
  | Addr.ip _ => some "ip"
  | Addr.unix _ net => some net
  | Addr.other network => some network

/-- The fields of `netFD` that adoption reads or writes. -/
structure NetFD where
  sysfd : Handle
  family : Family
  sotype : Int
  net : String
  laddr : Addr
  raddr : Addr
  deriving DecidableEq, Repr

/-- Everything `newFileFD` asks of the operating system and of the rest of package `net`.
`newFDFails`, `addrFunc` and `pfdInit` stand for `newFD`, `(*netFD).addrFunc` and
`poll.FD.Init`, whose bodies are not part of the sources at hand.  The two address queries
return the pair `(Sockaddr, error)` as the syscalls do. -/
structure NetWorld where
  getHandleInformation : Handle → Option Errno
  duplicateHandle : Handle → Except Errno Handle
  setNonblock : Handle → Option Errno
  getsockoptInt : Handle → Except Errno Int
  getsockname : Handle → Sockaddr × Option Errno
  getpeername : Handle → Sockaddr × Option Errno
  newFDFails : Handle → Family → Int → Option GoError
  addrFunc : Family → Int → Sockaddr → Addr
  pfdInit : Handle → Option GoError

/-- Externally visible steps of the adoption functions, in program order.  `closeFunc s`
is `poll.CloseFunc(s)`; `fdClose s` is `fd.Close()` on the descriptor that owns `s`,
which closes `s`. -/
inductive NetEvent where
  | getHandleInformation (s : Handle)
  | duplicateHandle (s : Handle)
  | setNonblock (s : Handle)
  | getsockopt (s : Handle)
  | getsockname (s : Handle)
  | getpeername (s : Handle)
  | newFD (s : Handle) (family : Family) (sotype : Int)
  | pfdInit (s : Handle)
  | closeFunc (s : Handle)
  | fdClose (s : Handle)
  deriving DecidableEq, Repr

/-- How a call ends: with a value and a nil error, with a nil value and an error, or in
a panic. -/
inductive Result (α : Type) where
  | ok (a : α)
  | err (e : GoError)
  | panic
  deriving DecidableEq, Repr

/-- The function `dupCloseOnExec`. -/
def dupCloseOnExec (w : NetWorld) (s : Handle) : Except GoError Handle :=
  match w.duplicateHandle s with
  | Except.error e => Except.error (GoError.syscallError "duplicatehandle" e)
  | Except.ok ns => Except.ok ns

/-- Modelled from the spec: `newFD` (its file is not part of the sources at hand)
constructs the Network Endpoint Descriptor holding the handle, the address family and the
socket type it is given, with no addresses yet; whether it fails is left to the
environment. -/
def newFD (w : NetWorld) (s : Handle) (family : Family) (sotype : Int) (net : String) :
    Except GoError NetFD :=
  match w.newFDFails s family sotype with
  | some e => Except.error e
  | none =>
    Except.ok { sysfd := s, family := family, sotype := sotype, net := net,
                laddr := Addr.nil, raddr := Addr.nil }

/-- Modelled from the spec: `(*netFD).setAddr` (not part of the sources at hand) stores the
resolved local and remote addresses in the descriptor. -/
def NetFD.setAddr (fd : NetFD) (laddr raddr : Addr) : NetFD :=
  { fd with laddr := laddr, raddr := raddr }

/-- Lines 62-75 of `newFileFD`: construct the descriptor, resolve the addresses, register
with the multiplexer. -/
def newFileFDTail (w : NetWorld) (s : Handle) (family : Family) (sotype : Int)
    (lsa rsa : Sockaddr) : Result NetFD × List NetEvent :=
  match newFD w s family sotype "" with
  | Except.error e => (Result.err e, [NetEvent.newFD s family sotype, NetEvent.closeFunc s])
  | Except.ok fd =>
    let laddr := w.addrFunc fd.family fd.sotype lsa
    let raddr := w.addrFunc fd.family fd.sotype rsa
    match laddr.network with
    | none => (Result.panic, [NetEvent.newFD s family sotype])
    | some net =>
      let fd1 := { fd with net := net }
      match w.pfdInit fd1.sysfd with
      | some e =>
        (Result.err e,
          [NetEvent.newFD s family sotype, NetEvent.pfdInit fd1.sysfd,
            NetEvent.fdClose fd1.sysfd])
      | none =>
        (Result.ok (fd1.setAddr laddr raddr),
          [NetEvent.newFD s family sotype, NetEvent.pfdInit fd1.sysfd])

/-- The function `newFileFD`; `f` is the handle `f.Fd()`. -/
def newFileFD (w : NetWorld) (f : Handle) : Result NetFD × List NetEvent :=
  match w.getHandleInformation f with
  | some e => (Result.err (GoError.errno e), [NetEvent.getHandleInformation f])
  | none =>
    match dupCloseOnExec w f with
    | Except.error e =>
      (Result.err e, [NetEvent.getHandleInformation f, NetEvent.duplicateHandle f])
    | Except.ok s =>
      match w.setNonblock s with
      | some e =>
        (Result.err (GoError.errno e),
          [NetEvent.getHandleInformation f, NetEvent.duplicateHandle f,
            NetEvent.setNonblock s, NetEvent.closeFunc s])
      | none =>
        match w.getsockoptInt s with
        | Except.error e =>
          (Result.err (GoError.syscallError "getsockopt" e),
            [NetEvent.getHandleInformation f, NetEvent.duplicateHandle f,
              NetEvent.setNonblock s, NetEvent.getsockopt s, NetEvent.closeFunc s])
        | Except.ok sotype =>
          let lsa := (w.getsockname s).1
          let rsa := (w.getpeername s).1
          let pre := [NetEvent.getHandleInformation f, NetEvent.duplicateHandle f,
            NetEvent.setNonblock s, NetEvent.getsockopt s, NetEvent.getsockname s,
            NetEvent.getpeername s]
          match lsa with
          | Sockaddr.inet4 _ _ =>
            let r := newFileFDTail w s Family.AF_INET sotype lsa rsa
            (r.1, pre ++ r.2)
          | Sockaddr.inet6 _ _ _ =>
            let r := newFileFDTail w s Family.AF_INET6 sotype lsa rsa
            (r.1, pre ++ r.2)
          | Sockaddr.unix _ =>
            (Result.err (GoError.errno Errno.EWINDOWS), pre ++ [NetEvent.closeFunc s])
          | _ =>
            (Result.err (GoError.errno Errno.EPROTONOSUPPORT), pre ++ [NetEvent.closeFunc s])

/-- Values of interface type `Conn` built here: `newTCPConn(fd)`, `newUDPConn(fd)`,
`newIPConn(fd)`. -/
inductive Conn where
  | tcpConn (fd : NetFD)
  | udpConn (fd : NetFD)
  | ipConn (fd : NetFD)
  deriving DecidableEq, Repr

/-- Values of interface type `Listener` built here: `&TCPListener{fd}`. -/
inductive Listener where
  | tcpListener (fd : NetFD)
  deriving DecidableEq, Repr

/-- Values of interface type `PacketConn` built here: `newUDPConn(fd)`, `newIPConn(fd)`. -/
inductive PacketConn where
  | udpConn (fd : NetFD)
  | ipConn (fd : NetFD)
  deriving DecidableEq, Repr

/-- The function `fileConn`. -/
def fileConn (w : NetWorld) (f : Handle) : Result Conn × List NetEvent :=
  match newFileFD w f with
  | (Result.err e, tr) => (Result.err e, tr)
  | (Result.panic, tr) => (Result.panic, tr)
  | (Result.ok fd, tr) =>
    match fd.laddr with
    | Addr.tcp _ _ => (Result.ok (Conn.tcpConn fd), tr)
    | Addr.udp _ _ => (Result.ok (Conn.udpConn fd), tr)
    | Addr.ip _ => (Result.ok (Conn.ipConn fd), tr)
    | Addr.unix _ _ =>
      (Result.err (GoError.errno Errno.EWINDOWS), tr ++ [NetEvent.fdClose fd.sysfd])
    | _ => (Result.err (GoError.errno Errno.EINVAL), tr ++ [NetEvent.fdClose fd.sysfd])

/-- The function `fileListener`. -/
def fileListener (w : NetWorld) (f : Handle) : Result Listener × List NetEvent :=
  match newFileFD w f with
  | (Result.err e, tr) => (Result.err e, tr)
  | (Result.panic, tr) => (Result.panic, tr)
  | (Result.ok fd, tr) =>
    match fd.laddr with
    | Addr.tcp _ _ => (Result.ok (Listener.tcpListener fd), tr)
    | Addr.unix _ _ =>
      (Result.err (GoError.errno Errno.EWINDOWS), tr ++ [NetEvent.fdClose fd.sysfd])
    | _ => (Result.err (GoError.errno Errno.EINVAL), tr ++ [NetEvent.fdClose fd.sysfd])

/-- The function `filePacketConn`. -/
def filePacketConn (w : NetWorld) (f : Handle) : Result PacketConn × List NetEvent :=
  match newFileFD w f with
  | (Result.err e, tr) => (Result.err e, tr)
  | (Result.panic, tr) => (Result.panic, tr)
  | (Result.ok fd, tr) =>
    match fd.laddr with
    | Addr.udp _ _ => (Result.ok (PacketConn.udpConn fd), tr)
    | Addr.ip _ => (Result.ok (PacketConn.ipConn fd), tr)
    | Addr.unix _ _ =>
      (Result.err (GoError.errno Errno.EWINDOWS), tr ++ [NetEvent.fdClose fd.sysfd])
    | _ => (Result.err (GoError.errno Errno.EINVAL), tr ++ [NetEvent.fdClose fd.sysfd])

/-- Number of times the handle `s` is closed during the events `tr`.
Modelled from the spec: `(*netFD).Close` is not part of the sources at hand; the descriptor
owns its handle exclusively, so `fd.Close()` counts as one close of `fd.sysfd`, like a
direct `poll.CloseFunc`. -/
def closeCount (s : Handle) (tr : List NetEvent) : Nat :=
  tr.count (NetEvent.closeFunc s) + tr.count (NetEvent.fdClose s)

/-- The duplicate handle that `newFileFD` obtains for `f`, if validation and duplication
both succeed. -/
def duplicated (w : NetWorld) (f : Handle) : Option Handle :=
  match w.getHandleInformation f with
  | some _ => none
  | none =>
    match w.duplicateHandle f with
    | Except.error _ => none
    | Except.ok s => some s

/-- The descriptor wrapped by a connection. -/
def Conn.fd : Conn → NetFD
  | Conn.tcpConn fd => fd
  | Conn.udpConn fd => fd
  | Conn.ipConn fd => fd

/-- The descriptor wrapped by a listener. -/
def Listener.fd : Listener → NetFD
  | Listener.tcpListener fd => fd

/-- The descriptor wrapped by a packet connection. -/
def PacketConn.fd : PacketConn → NetFD
  | PacketConn.udpConn fd => fd
  | PacketConn.ipConn fd => fd

/-- The environment `w` with the answer of `syscall.Getpeername` replaced by `x`. -/
def NetWorld.withPeer (w : NetWorld) (x : Sockaddr × Option Errno) : NetWorld :=
  { w with getpeername := fun _ => x }

end GoNet

namespace GoPlugin

/-! ## Concrete environments used to evaluate the code -/

/-- The state of a process that has not opened any plugin. -/
def s0 : LoaderState := { locked := false, plugins := [], heap := [] }

/-- An environment in which `link.dll` is a symbolic link to `real.dll`, the image lists
the data symbol `Foo` and the function symbol `.Bar`, and `GetProcAddress` resolves
`link.init` and `link.Bar` but fails (returns `0`) on `link.Foo`. -/
def wA : World where
  evalSymlinks := fun n => if n = "link.dll" then Except.ok "real.dll" else Except.ok n
  peOpen := fun p =>
    if p = "real.dll" then Except.ok { importedSymbols := Except.ok ["Foo", ".Bar"] }
    else Except.error "no such file"
  loadLibrary := fun _ => Except.ok 7
  getProcAddress := fun _ n =>
    if n = "link.init" then 512 else if n = "link.Bar" then 4096 else 0

/-- The same file system as `wA` at a moment when no image can be opened. -/
def wMissing : World where
  evalSymlinks := fun n => if n = "link.dll" then Except.ok "real.dll" else Except.ok n
  peOpen := fun _ => Except.error "no such file"
  loadLibrary := fun _ => Except.ok 7
  getProcAddress := fun _ _ => 0

/-- A heap holding one completed record with the single symbol `Bar`. -/
def heapA : List Plugin :=
  [{ pluginpath := "real.dll", loaded := true, syms := [("Bar", Symbol.uintptr 4096)] }]

end GoPlugin

namespace GoNet

/-- An address conversion in the style of package `net`, used in the concrete
environments below: stream sockets (`sotype` 1) give TCP addresses, datagram sockets (2)
UDP addresses, raw sockets (3) IP addresses; a nil socket address gives a nil address. -/
def exampleAddrFunc (_family : Family) (sotype : Int) : Sockaddr → Addr
  | Sockaddr.inet4 port addr =>
    if sotype = 1 then Addr.tcp addr port
    else if sotype = 2 then Addr.udp addr port
    else if sotype = 3 then Addr.ip addr
    else Addr.nil
  | Sockaddr.inet6 port _ addr =>
    if sotype = 1 then Addr.tcp addr port
    else if sotype = 2 then Addr.udp addr port
    else if sotype = 3 then Addr.ip addr
    else Addr.nil
  | _ => Addr.nil

/-- A bound, unconnected socket of type `sotype` on `127.0.0.1:8080`: every call succeeds,
except that `Getpeername` fails because there is no peer.  The duplicate of handle `f` is
`f + 100`. -/
def wBound (sotype : Int) : NetWorld where
  getHandleInformation := fun _ => none
  duplicateHandle := fun f => Except.ok (f + 100)
  setNonblock := fun _ => none
  getsockoptInt := fun _ => Except.ok sotype
  getsockname := fun _ => (Sockaddr.inet4 8080 [127, 0, 0, 1], none)
  getpeername := fun _ => (Sockaddr.nil, some (Errno.other 10057))
  newFDFails := fun _ _ _ => none
  addrFunc := exampleAddrFunc
  pfdInit := fun _ => none

/-- A stream socket whose local address is Unix-domain. -/
def wUnix : NetWorld :=
  { wBound 1 with getsockname := fun _ => (Sockaddr.unix "sock", none) }

/-- A stream socket on which `Getsockname` fails, so that no local address is obtained. -/
def wNoLocal : NetWorld :=
  { wBound 1 with getsockname := fun _ => (Sockaddr.nil, some (Errno.other 10022)) }

end GoNet
namespace GoPlugin

/-! ## Auxiliary facts about the heap and the maps -/

theorem length_updateAt (f : Plugin → Plugin) (p : Ptr) (l : List Plugin) :
    (updateAt f p l).length = l.length := by
  induction l generalizing p with
  | nil => simp [updateAt]
  | cons r rs ih =>
    cases p with
    | zero => simp [updateAt]
    | succ p => simp [updateAt, ih]

theorem getElem?_updateAt (f : Plugin → Plugin) (p q : Ptr) (l : List Plugin) :
    (updateAt f p l)[q]? = if q = p then (l[q]?).map f else l[q]? := by
  induction l generalizing p q with
  | nil => simp [updateAt]
  | cons r rs ih =>
    cases p with
    | zero =>
      cases q with
      | zero => simp [updateAt]
      | succ q => simp [updateAt]
    | succ p =>
      cases q with
      | zero => simp [updateAt]
      | succ q => simp [updateAt, ih p q]

theorem GoMap.get_set_self {V : Type} (m : GoMap V) (k : String) (v : V) :
    (GoMap.set m k v).get k = some v := by
  simp [GoMap.set, GoMap.get, List.lookup]

/-! ## The symbol loop when entered with `err == nil` -/

/-- The loop started with `err == nil` never takes the `return` on line 96: it runs to
the end or panics on an empty name.  It writes nothing but the `syms` field of the records,
and performs only `println` and `GetProcAddress`. -/
theorem symLoop_none (w : World) (h : Handle) (name : String) (p : Ptr) :
    ∀ (names : List String) (s : LoaderState),
      ((symLoop w h name p none names s).1 = none ∨
        (symLoop w h name p none names s).1 = some Outcome.panic) ∧
      (symLoop w h name p none names s).2.1.locked = s.locked ∧
      (symLoop w h name p none names s).2.1.plugins = s.plugins ∧
      (∀ q : Ptr, ((symLoop w h name p none names s).2.1.heap[q]?).map Plugin.shell
        = (s.heap[q]?).map Plugin.shell) ∧
      (∀ e ∈ (symLoop w h name p none names s).2.2, e.isSymbolStep = true) := by
  intro names
  induction names with
  | nil => intro s; simp [symLoop]
  | cons n rest ih =>
    intro s
    rcases hn : n.data with _ | ⟨c, cs⟩
    · simp [symLoop, hn, Event.isSymbolStep]
    · simp only [symLoop, hn]
      obtain ⟨h1, h2, h3, h4, h5⟩ := ih
        ((if (c == '.') = true then s.deleteSym p n else s).setSym p
          (if (c == '.') = true then String.mk cs else n)
          (Symbol.uintptr (w.getProcAddress h
            (name ++ "." ++ (if (c == '.') = true then String.mk cs else n)))))
      refine ⟨h1, ?_, ?_, ?_, ?_⟩
      · rw [h2]; by_cases hc : (c == '.') = true <;>
          simp [hc, LoaderState.setSym, LoaderState.deleteSym]
      · rw [h3]; by_cases hc : (c == '.') = true <;>
          simp [hc, LoaderState.setSym, LoaderState.deleteSym]
      · intro q
        rw [h4 q]
        by_cases hc : (c == '.') = true <;>
          by_cases hq : q = p <;>
          simp [hc, hq, LoaderState.setSym, LoaderState.deleteSym, getElem?_updateAt,
            Plugin.shell, Function.comp_def] <;> rfl
      · intro e he
        simp only [List.mem_cons] at he
        rcases he with rfl | rfl | he
        · rfl
        · rfl
        · exact h5 e he

/-- When no imported name is empty, the symbol loop entered with `err == nil` runs to its
end: the index expression `symName[0]` is the only step that can panic. -/
theorem symLoop_none_completes (w : World) (h : Handle) (name : String) (p : Ptr) :
    ∀ (names : List String) (s : LoaderState), (∀ n ∈ names, n.data ≠ []) →
      (symLoop w h name p none names s).1 = none := by
  intro names
  induction names with
  | nil => intro s _; simp [symLoop]
  | cons n rest ih =>
    intro s hne
    rcases hn : n.data with _ | ⟨c, cs⟩
    · exact absurd hn (hne n (List.mem_cons_self _ _))
    · simp only [symLoop, hn]
      exact ih _ (fun m hm => hne m (List.mem_cons_of_mem _ hm))

/-- Shape of every run of the second half of `open`: after the published prefix come
loop events only; then either the run panics, which takes an empty name in the symbol
list and leaves the placeholder registered and uncompleted, or it closes `loaded` as its
last step and returns the fresh record with a nil error. -/
theorem openLoaded_shape (w : World) (name path : String) (names : List String) (h : Handle)
    (s : LoaderState) :
    ∃ tr : List Event, (∀ e ∈ tr, e.isSymbolStep = true) ∧
      (((openLoaded w name path names h s).1 = Outcome.panic ∧
          (openLoaded w name path names h s).2.2
            = publishedSteps w name path h s.heap.length ++ tr ∧
          (∃ n ∈ names, n.data = []) ∧
          (openLoaded w name path names h s).2.1.locked = false ∧
          (openLoaded w name path names h s).2.1.plugins
            = GoMap.set s.plugins path s.heap.length ∧
          ∃ r, (openLoaded w name path names h s).2.1.heap[s.heap.length]? = some r ∧
            r.loaded = false ∧ r.pluginpath = path) ∨
       ((openLoaded w name path names h s).1 = Outcome.ret (some s.heap.length) none ∧
          (openLoaded w name path names h s).2.2
            = publishedSteps w name path h s.heap.length ++ tr
                ++ [Event.closeLoaded s.heap.length] ∧
          (openLoaded w name path names h s).2.1.locked = false ∧
          (openLoaded w name path names h s).2.1.plugins
            = GoMap.set s.plugins path s.heap.length ∧
          ∃ r, (openLoaded w name path names h s).2.1.heap[s.heap.length]? = some r ∧
            r.loaded = true ∧ r.pluginpath = path)) := by
  obtain ⟨h1, h2, h3, h4, h5⟩ := symLoop_none w h (trimDll name) s.heap.length names
    { locked := false
      plugins := GoMap.set s.plugins path s.heap.length
      heap := s.heap ++ [{ pluginpath := path, loaded := false, syms := [] }] }
  rcases hsl : symLoop w h (trimDll name) s.heap.length none names
    { locked := false
      plugins := GoMap.set s.plugins path s.heap.length
      heap := s.heap ++ [{ pluginpath := path, loaded := false, syms := [] }] }
    with ⟨o, s2, tr⟩
  rw [hsl] at h1 h2 h3 h4 h5
  simp only at h1 h2 h3 h4 h5
  refine ⟨tr, h5, ?_⟩
  have hp := h4 s.heap.length
  simp only [List.getElem?_append_right (le_refl _), Nat.sub_self, List.getElem?_cons_zero,
    Option.map_some', Plugin.shell] at hp
  rcases hr : s2.heap[s.heap.length]? with _ | r
  · rw [hr] at hp; simp at hp
  · rw [hr] at hp
    simp only [Option.map_some', Option.some.injEq, Plugin.shell, Prod.mk.injEq] at hp
    rcases h1 with rfl | rfl
    · right
      simp only [openLoaded, publishedSteps, hsl, hr, hp.2, Bool.false_eq_true, if_false,
        LoaderState.closeLoaded, getElem?_updateAt, if_true, Option.map_some']
      exact ⟨trivial, trivial, h2, h3, _, rfl, rfl, hp.1⟩
    · left
      simp only [openLoaded, publishedSteps, hsl]
      refine ⟨trivial, trivial, ?_, h2, h3, r, hr, hp.2, hp.1⟩
      by_contra hne
      have hc := symLoop_none_completes w h (trimDll name) s.heap.length names
        { locked := false
          plugins := GoMap.set s.plugins path s.heap.length
          heap := s.heap ++ [{ pluginpath := path, loaded := false, syms := [] }] }
        (fun n hn hd => hne ⟨n, hn, hd⟩)
      rw [hsl] at hc
      cases hc

/-! ## The five ways a call of `open` can run -/

/-- Case analysis of `open`: path resolution fails; the lock is busy; a record is already
registered; the load attempt fails before publication; or the module is loaded and the
second half of the function runs. -/
theorem pluginOpen_cases (w : World) (name : String) (s : LoaderState) :
    (∃ e, w.evalSymlinks name = Except.error e ∧
      pluginOpen w name s =
        (Outcome.ret none (some ("plugin.Open(" ++ name ++ "): EvalSymlinks failed")), s,
          [Event.evalSymlinks name])) ∨
    (∃ path, w.evalSymlinks name = Except.ok path ∧ s.locked = true ∧
      pluginOpen w name s = (Outcome.blocked, s, [Event.evalSymlinks name])) ∨
    (∃ path p, w.evalSymlinks name = Except.ok path ∧ s.locked = false ∧
      s.plugins.get path = some p ∧
      pluginOpen w name s =
        (match s.heap[p]? with
          | none => (Outcome.panic, s, [Event.evalSymlinks name, Event.lock, Event.unlock])
          | some r =>
            if r.loaded then
              (Outcome.ret (some p) none, s,
                [Event.evalSymlinks name, Event.lock, Event.unlock, Event.recvLoaded p])
            else (Outcome.blocked, s, [Event.evalSymlinks name, Event.lock, Event.unlock]))) ∨
    (∃ path msg tr, w.evalSymlinks name = Except.ok path ∧ s.locked = false ∧
      s.plugins.get path = none ∧ (∀ e ∈ tr, e.isFailedLoadStep path) ∧
      pluginOpen w name s =
        (Outcome.ret none (some msg), s,
          [Event.evalSymlinks name, Event.lock, Event.peOpen path] ++ tr)) ∨
    (∃ path names h, w.evalSymlinks name = Except.ok path ∧ s.locked = false ∧
      s.plugins.get path = none ∧
      pluginOpen w name s =
        ((openLoaded w name path names h { s with locked := true }).1,
          (openLoaded w name path names h { s with locked := true }).2.1,
          [Event.evalSymlinks name, Event.lock, Event.peOpen path,
            Event.importedSymbols path, Event.peClose path, Event.loadLibrary path]
            ++ (openLoaded w name path names h { s with locked := true }).2.2) ∧
      ∃ f, w.peOpen path = Except.ok f ∧ f.importedSymbols = Except.ok names ∧
        w.loadLibrary path = Except.ok h) := by
  rcases hev : w.evalSymlinks name with e | path
  · left; exact ⟨e, rfl, by simp [pluginOpen, hev]⟩
  · right
    rcases hl : s.locked with _ | _
    · right
      have hs : ({ locked := false, plugins := s.plugins, heap := s.heap } : LoaderState) = s := by
        cases s; simp_all
      rcases hg : s.plugins.get path with _ | p
      · right
        rcases hpe : w.peOpen path with e | f
        · left
          refine ⟨path, "plugin.Open: " ++ e, [Event.unlock], rfl, rfl, hg, ?_, ?_⟩
          · simp [Event.isFailedLoadStep]
          · simp [pluginOpen, hev, hl, hg, hpe, hs]
        · rcases hi : f.importedSymbols with e | names
          · left
            refine ⟨path, "plugin.Open: " ++ e, [Event.importedSymbols path, Event.unlock],
              rfl, rfl, hg, ?_, ?_⟩
            · simp [Event.isFailedLoadStep]
            · simp [pluginOpen, hev, hl, hg, hpe, hi, hs]
          · rcases hll : w.loadLibrary path with e | h
            · left
              refine ⟨path, "plugin.Open: " ++ e,
                [Event.importedSymbols path, Event.peClose path, Event.loadLibrary path,
                  Event.unlock], rfl, rfl, hg, ?_, ?_⟩
              · simp [Event.isFailedLoadStep]
              · simp [pluginOpen, hev, hl, hg, hpe, hi, hll, hs]
            · right
              exact ⟨path, names, h, rfl, rfl, hg, by simp [pluginOpen, hev, hl, hg, hpe, hi, hll],
                f, hpe, hi, hll⟩
      · left
        refine ⟨path, p, rfl, rfl, hg, ?_⟩
        simp only [pluginOpen, hev, hl, hg, hs, Bool.false_eq_true, if_false]
    · left
      exact ⟨path, rfl, rfl, by simp [pluginOpen, hev, hl]⟩

/-! ## `lookup` -/

/-- C3: for every module record `p` and every symbol name that is not a key of `p`'s
symbol mapping, `lookup` returns the nil symbol together with an error whose message
contains both the symbol name and the module path; in particular it neither panics nor
returns with a nil error.  Moreover, for every name whatsoever, `lookup` on a record never
panics and never returns the nil symbol with a nil error. -/
theorem lookup_absent_symbol_not_found (heap : List Plugin) (p : Ptr) (r : Plugin)
    (symName : String) (hp : heap[p]? = some r) (habs : r.syms.get symName = none) :
    lookup heap p symName
        = LookupOutcome.ret Symbol.nil
            (some ("plugin: symbol " ++ symName ++ " not found in plugin " ++ r.pluginpath)) ∧
      (∃ a b : String,
        "plugin: symbol " ++ symName ++ " not found in plugin " ++ r.pluginpath
          = a ++ symName ++ b) ∧
      (∃ a b : String,
        "plugin: symbol " ++ symName ++ " not found in plugin " ++ r.pluginpath
          = a ++ r.pluginpath ++ b) ∧
      lookup heap p symName ≠ LookupOutcome.panic ∧
      (∀ v, lookup heap p symName ≠ LookupOutcome.ret v none) ∧
      (∀ n, lookup heap p n ≠ LookupOutcome.panic ∧
        lookup heap p n ≠ LookupOutcome.ret Symbol.nil none) := by
  have hl : lookup heap p symName
      = LookupOutcome.ret Symbol.nil
          (some ("plugin: symbol " ++ symName ++ " not found in plugin " ++ r.pluginpath)) := by
    simp [lookup, hp, habs]
  refine ⟨hl, ⟨"plugin: symbol ", " not found in plugin " ++ r.pluginpath, ?_⟩,
    ⟨"plugin: symbol " ++ symName ++ " not found in plugin ", "", ?_⟩, ?_, ?_, ?_⟩
  · simp [String.append_assoc]
  · simp
  · rw [hl]; simp
  · intro v; rw [hl]; simp
  · intro n
    simp only [lookup, hp]
    cases (r.syms.get n).getD Symbol.nil <;> simp

/-- C3, evaluated: looking up `Baz` in a record whose only symbol is `Bar`. -/
theorem lookup_absent_symbol_not_found_witness :
    lookup heapA 0 "Baz"
      = LookupOutcome.ret Symbol.nil (some "plugin: symbol Baz not found in plugin real.dll") :=
  (lookup_absent_symbol_not_found heapA 0
    { pluginpath := "real.dll", loaded := true, syms := [("Bar", Symbol.uintptr 4096)] }
    "Baz" (by decide) (by decide)).1

/-! ## Failed load attempts -/

/-- C1, refuted as stated: with no image to open, `open("real.dll")` fails; the failure is
not cached, because a later `open("link.dll")` (a link to the same file) parses the image
again, and once the image can be opened the later call succeeds. -/
theorem open_failure_cached_counterexample :
    (pluginOpen wMissing "real.dll" s0).1
        = Outcome.ret none (some "plugin.Open: no such file") ∧
      Event.peOpen "real.dll" ∈
        (pluginOpen wMissing "link.dll" (pluginOpen wMissing "real.dll" s0).2.1).2.2 ∧
      (pluginOpen wA "link.dll" (pluginOpen wMissing "real.dll" s0).2.1).1
        = Outcome.ret (some 0) none := by
  decide

/-- A call of `open` made with the lock free on a path whose canonical form has no entry
in the registry starts a load attempt: path resolution, lock, image parse. -/
theorem pluginOpen_unregistered_parses (w : World) (name path : String) (s : LoaderState)
    (hres : w.evalSymlinks name = Except.ok path) (hl : s.locked = false)
    (hg : s.plugins.get path = none) :
    ∃ tr, (pluginOpen w name s).2.2
      = [Event.evalSymlinks name, Event.lock, Event.peOpen path] ++ tr := by
  rcases pluginOpen_cases w name s with
    ⟨e1, k1, _⟩ | ⟨path2, _, k2, _⟩ | ⟨path2, p2, k1, _, k3, _⟩ |
    ⟨path2, msg2, tr2, k1, _, _, _, k5⟩ | ⟨path2, names2, h2, k1, _, _, k5, _⟩
  · rw [hres] at k1; cases k1
  · rw [hl] at k2; cases k2
  · rw [hres] at k1; cases k1
    rw [hg] at k3; cases k3
  · rw [hres] at k1; cases k1
    exact ⟨tr2, by rw [k5]⟩
  · rw [hres] at k1; cases k1
    exact ⟨_, by rw [k5]; rfl⟩

/-- C1, amended: a call of `open` that resolves its path and returns an error publishes no
record and leaves lock, registry and heap exactly as they were, so the registry has no
entry for the canonical path.  The next call whose path resolves to the same canonical
path therefore starts a fresh attempt with a new image parse, and so does every later such
call made with the lock free while the registry has no entry for that path, that is,
until a load of that path succeeds. -/
theorem open_failure_leaves_no_record (w w2 : World) (name name2 path : String)
    (s : LoaderState) (po : Option Ptr) (e : String)
    (hres : w.evalSymlinks name = Except.ok path)
    (hres2 : w2.evalSymlinks name2 = Except.ok path)
    (hfail : (pluginOpen w name s).1 = Outcome.ret po (some e)) :
    po = none ∧
      (pluginOpen w name s).2.1 = s ∧
      s.plugins.get path = none ∧
      (∀ q p, Event.publish q p ∉ (pluginOpen w name s).2.2) ∧
      (∃ tr, (pluginOpen w2 name2 (pluginOpen w name s).2.1).2.2
          = [Event.evalSymlinks name2, Event.lock, Event.peOpen path] ++ tr) ∧
      (∀ s2 : LoaderState, s2.locked = false → s2.plugins.get path = none →
        ∃ tr, (pluginOpen w2 name2 s2).2.2
          = [Event.evalSymlinks name2, Event.lock, Event.peOpen path] ++ tr) := by
  rcases pluginOpen_cases w name s with
    ⟨e1, h1, _⟩ | ⟨path1, h1, _, h3⟩ | ⟨path1, p1, h1, _, _, h4⟩ |
    ⟨path1, msg, tr, h1, hl, hg, htr, h5⟩ | ⟨path1, names, h, h1, _, _, h5, _⟩
  · rw [hres] at h1; cases h1
  · rw [h3] at hfail; cases hfail
  · rw [h4] at hfail
    rcases hh : s.heap[p1]? with _ | r
    · simp [hh] at hfail
    · by_cases hr : r.loaded = true <;> simp [hh, hr] at hfail
  · rw [hres] at h1
    cases h1
    rw [h5] at hfail ⊢
    simp only [Outcome.ret.injEq] at hfail
    refine ⟨hfail.1.symm, rfl, hg, ?_, pluginOpen_unregistered_parses w2 name2 path s hres2 hl hg,
      fun s2 hl2 hg2 => pluginOpen_unregistered_parses w2 name2 path s2 hres2 hl2 hg2⟩
    intro q p hmem
    simp only [List.cons_append, List.nil_append, List.mem_cons] at hmem
    rcases hmem with hmem | hmem | hmem | hmem
    · cases hmem
    · cases hmem
    · cases hmem
    · rcases htr _ hmem with h | h | h | h <;> cases h
  · rw [h5] at hfail
    obtain ⟨tr, _, hsh | hsh⟩ := openLoaded_shape w name path1 names h { s with locked := true }
    · simp only at hfail; rw [hsh.1] at hfail; cases hfail
    · simp only at hfail; rw [hsh.1] at hfail; cases hfail

/-- C1 amended, evaluated: the failed `open("real.dll")` leaves the initial state, and the
later `open("link.dll")` starts with a new image parse of `real.dll`. -/
theorem open_failure_leaves_no_record_witness :
    (pluginOpen wMissing "real.dll" s0).2.1 = s0 ∧
      ∃ tr, (pluginOpen wA "link.dll" (pluginOpen wMissing "real.dll" s0).2.1).2.2
          = [Event.evalSymlinks "link.dll", Event.lock, Event.peOpen "real.dll"] ++ tr :=
  ⟨(open_failure_leaves_no_record wMissing wA "real.dll" "link.dll" "real.dll" s0 none
      "plugin.Open: no such file" rfl rfl (by decide)).2.1,
    (open_failure_leaves_no_record wMissing wA "real.dll" "link.dll" "real.dll" s0 none
      "plugin.Open: no such file" rfl rfl (by decide)).2.2.2.2.1⟩

/-! ## Symbols that the OS cannot resolve -/

/-- C2, evaluated at the failing input: `GetProcAddress` fails on `link.Foo`, `open`
returns the record with a nil error, the resolved symbol `Bar` is found, and `lookup` of
the unresolved `Foo` returns the zero address with a nil error instead of failing. -/
theorem open_unresolved_symbol_lookup_returns_zero :
    wA.getProcAddress 7 "link.Foo" = 0 ∧
      (pluginOpen wA "link.dll" s0).1 = Outcome.ret (some 0) none ∧
      lookup (pluginOpen wA "link.dll" s0).2.1.heap 0 "Bar"
        = LookupOutcome.ret (Symbol.uintptr 4096) none ∧
      lookup (pluginOpen wA "link.dll" s0).2.1.heap 0 "Foo"
        = LookupOutcome.ret (Symbol.uintptr 0) none := by
  decide

/-! ## Repeated opens of one canonical path -/

/-- After a call of `open` has returned a record, the lock is free, the registry maps the
canonical path to that record, and the record is completed. -/
theorem pluginOpen_success_state (w : World) (name path : String) (s : LoaderState) (p : Ptr)
    (hres : w.evalSymlinks name = Except.ok path)
    (hret : (pluginOpen w name s).1 = Outcome.ret (some p) none) :
    (pluginOpen w name s).2.1.locked = false ∧
      (pluginOpen w name s).2.1.plugins.get path = some p ∧
      ∃ r, (pluginOpen w name s).2.1.heap[p]? = some r ∧ r.loaded = true := by
  rcases pluginOpen_cases w name s with
    ⟨e1, h1, _⟩ | ⟨path1, _, _, h3⟩ | ⟨path1, p1, h1, hl, hg, h4⟩ |
    ⟨path1, msg, tr, _, _, _, _, h5⟩ | ⟨path1, names, h, h1, _, _, h5, _⟩
  · rw [hres] at h1; cases h1
  · rw [h3] at hret; cases hret
  · rw [hres] at h1; cases h1
    rw [h4] at hret ⊢
    rcases hh : s.heap[p1]? with _ | r
    · simp [hh] at hret
    · by_cases hr : r.loaded = true
      · simp only [hh, hr, if_true, Outcome.ret.injEq, Option.some.injEq, and_true] at hret ⊢
        subst hret
        exact ⟨hl, hg, r, hh, hr⟩
      · simp [hh, hr] at hret
  · rw [h5] at hret; cases hret
  · rw [hres] at h1; cases h1
    rw [h5] at hret ⊢
    obtain ⟨tr, _, hsh | hsh⟩ := openLoaded_shape w name path names h { s with locked := true }
    · simp only at hret; rw [hsh.1] at hret; cases hret
    · obtain ⟨ho, _, hlk, hpl, r, hr1, hr2, _⟩ := hsh
      simp only at hret ho hlk hpl hr1 ⊢
      rw [ho] at hret
      simp only [Outcome.ret.injEq, Option.some.injEq, and_true] at hret
      subst hret
      exact ⟨hlk, by rw [hpl]; exact GoMap.get_set_self _ _ _, r, hr1, hr2⟩

theorem isSymbolStep_not_lock (e : Event) (h : e.isSymbolStep = true) :
    e ≠ Event.lock ∧ e ≠ Event.unlock ∧ (∀ p, e ≠ Event.closeLoaded p) ∧
      ∀ q p, e ≠ Event.publish q p := by
  cases e <;> simp_all [Event.isSymbolStep]

/-- A call of `open` on a path whose canonical form is registered, made with the lock
free: it returns the registered record when that record is completed and blocks on its
channel otherwise; either way it changes nothing. -/
theorem pluginOpen_on_registered (w : World) (name path : String) (s : LoaderState) (p : Ptr)
    (r : Plugin) (hres : w.evalSymlinks name = Except.ok path) (hl : s.locked = false)
    (hg : s.plugins.get path = some p) (hp : s.heap[p]? = some r) :
    pluginOpen w name s =
      (if r.loaded then
        (Outcome.ret (some p) none, s,
          [Event.evalSymlinks name, Event.lock, Event.unlock, Event.recvLoaded p])
      else (Outcome.blocked, s, [Event.evalSymlinks name, Event.lock, Event.unlock])) := by
  rcases pluginOpen_cases w name s with
    ⟨e1, h1, _⟩ | ⟨path1, _, h2, _⟩ | ⟨path1, p1, h1, _, h3, h4⟩ |
    ⟨path1, msg, tr, h1, _, h3, _⟩ | ⟨path1, names, h, h1, _, h3, _⟩
  · rw [hres] at h1; cases h1
  · rw [hl] at h2; cases h2
  · rw [hres] at h1; cases h1
    rw [hg] at h3; cases h3
    rw [h4, hp]
  · rw [hres] at h1; cases h1
    rw [hg] at h3; cases h3
  · rw [hres] at h1; cases h1
    rw [hg] at h3; cases h3

/-- The only publication in the trace of a load is that of the fresh record under the
canonical path. -/
theorem publish_mem_loaded_trace (w : World) (name path path1 : String) (h : Handle)
    (p p0 : Ptr) (tr tail : List Event) (htr : ∀ e ∈ tr, e.isSymbolStep = true)
    (htail : Event.publish path p ∉ tail)
    (hmem : Event.publish path p ∈
      [Event.evalSymlinks name, Event.lock, Event.peOpen path1, Event.importedSymbols path1,
        Event.peClose path1, Event.loadLibrary path1] ++
        (publishedSteps w name path1 h p0 ++ tr ++ tail)) :
    path = path1 ∧ p = p0 := by
  rcases List.mem_append.1 hmem with k | k
  · simp at k
  · rcases List.mem_append.1 k with k | k
    · rcases List.mem_append.1 k with k | k
      · unfold publishedSteps at k
        rcases List.mem_append.1 k with k | k
        · simpa using k
        · split at k <;> simp at k
      · exact absurd rfl ((isSymbolStep_not_lock _ (htr _ k)).2.2.2 path p)
    · exact absurd k htail

/-- Once a call of `open` has published a record, whatever the call does afterwards, the
state it leaves has the lock free and the registry mapping the canonical path to that
record, which is on the heap under that path; if the call returned, the record is
completed. -/
theorem pluginOpen_published_state (w : World) (name path : String) (s : LoaderState)
    (p : Ptr) (hpub : Event.publish path p ∈ (pluginOpen w name s).2.2) :
    (pluginOpen w name s).2.1.locked = false ∧
      (pluginOpen w name s).2.1.plugins.get path = some p ∧
      ∃ r, (pluginOpen w name s).2.1.heap[p]? = some r ∧ r.pluginpath = path ∧
        ((∃ po pe, (pluginOpen w name s).1 = Outcome.ret po pe) → r.loaded = true) := by
  rcases pluginOpen_cases w name s with
    ⟨e1, _, h2⟩ | ⟨path1, _, _, h3⟩ | ⟨path1, p1, _, _, _, h4⟩ |
    ⟨path1, msg, tr, _, _, _, htr, h5⟩ | ⟨path1, names, h, _, _, _, h5, _⟩
  · rw [h2] at hpub; simp at hpub
  · rw [h3] at hpub; simp at hpub
  · rw [h4] at hpub
    rcases hh : s.heap[p1]? with _ | r
    · simp [hh] at hpub
    · by_cases hr : r.loaded = true <;> simp [hh, hr] at hpub
  · rw [h5] at hpub
    simp only [List.cons_append, List.nil_append, List.mem_cons] at hpub
    rcases hpub with hpub | hpub | hpub | hpub
    · cases hpub
    · cases hpub
    · cases hpub
    · rcases htr _ hpub with k | k | k | k <;> cases k
  · rw [h5] at hpub ⊢
    simp only at hpub ⊢
    obtain ⟨tr, htr, hsh | hsh⟩ := openLoaded_shape w name path1 names h { s with locked := true }
    · obtain ⟨ho, htrace, _, hlk, hpl, r, hr1, _, hr3⟩ := hsh
      simp only at ho htrace hlk hpl hr1
      rw [htrace] at hpub
      have hpub2 : Event.publish path p ∈
          [Event.evalSymlinks name, Event.lock, Event.peOpen path1,
            Event.importedSymbols path1, Event.peClose path1, Event.loadLibrary path1] ++
            (publishedSteps w name path1 h s.heap.length ++ tr ++ []) := by
        simpa using hpub
      obtain ⟨rfl, rfl⟩ := publish_mem_loaded_trace w name path path1 h p s.heap.length tr []
        htr (by simp) hpub2
      refine ⟨hlk, by rw [hpl]; exact GoMap.get_set_self _ _ _, r, hr1, hr3, ?_⟩
      rintro ⟨po, pe, hret⟩
      rw [ho] at hret; cases hret
    · obtain ⟨_, htrace, hlk, hpl, r, hr1, hr2, hr3⟩ := hsh
      simp only at htrace hlk hpl hr1
      rw [htrace] at hpub
      obtain ⟨rfl, rfl⟩ := publish_mem_loaded_trace w name path path1 h p s.heap.length tr
        [Event.closeLoaded s.heap.length] htr (by simp) hpub
      exact ⟨hlk, by rw [hpl]; exact GoMap.get_set_self _ _ _, r, hr1, hr3, fun _ => hr2⟩

/-- C4: for every two paths that resolve to the same canonical path, once `open` on the
first has published a record `p` (or has returned the record `p` published earlier), the
registry maps the canonical path to `p`, and `open` on the second leaves lock, registry and
heap unchanged, performs no image parse, no OS load, no initializer call and no
publication, does not panic, and can return nothing but the very same record `p` (the same
address) with a nil error.  It returns it as soon as `p` is completed, which is the case
whenever the first call has returned: its steps are then exactly path resolution, lock,
unlock and the receive on the closed channel.  While `p` is uncompleted the second call
waits on `p`'s channel. -/
theorem open_same_canonical_path_same_record (w1 w2 : World) (n1 n2 path : String)
    (s : LoaderState) (p : Ptr)
    (h1 : w1.evalSymlinks n1 = Except.ok path) (h2 : w2.evalSymlinks n2 = Except.ok path)
    (hfirst : Event.publish path p ∈ (pluginOpen w1 n1 s).2.2 ∨
      (pluginOpen w1 n1 s).1 = Outcome.ret (some p) none) :
    (pluginOpen w1 n1 s).2.1.plugins.get path = some p ∧
      (∃ r, (pluginOpen w1 n1 s).2.1.heap[p]? = some r ∧
        ((∃ po pe, (pluginOpen w1 n1 s).1 = Outcome.ret po pe) → r.loaded = true) ∧
        (r.loaded = true →
          pluginOpen w2 n2 (pluginOpen w1 n1 s).2.1 =
            (Outcome.ret (some p) none, (pluginOpen w1 n1 s).2.1,
              [Event.evalSymlinks n2, Event.lock, Event.unlock, Event.recvLoaded p])) ∧
        (r.loaded = false →
          pluginOpen w2 n2 (pluginOpen w1 n1 s).2.1 =
            (Outcome.blocked, (pluginOpen w1 n1 s).2.1,
              [Event.evalSymlinks n2, Event.lock, Event.unlock]))) ∧
      ((∃ po pe, (pluginOpen w1 n1 s).1 = Outcome.ret po pe) →
        pluginOpen w2 n2 (pluginOpen w1 n1 s).2.1 =
          (Outcome.ret (some p) none, (pluginOpen w1 n1 s).2.1,
            [Event.evalSymlinks n2, Event.lock, Event.unlock, Event.recvLoaded p])) ∧
      (pluginOpen w2 n2 (pluginOpen w1 n1 s).2.1).2.1 = (pluginOpen w1 n1 s).2.1 ∧
      (∀ q e, (pluginOpen w2 n2 (pluginOpen w1 n1 s).2.1).1 = Outcome.ret q e →
        q = some p ∧ e = none) ∧
      (pluginOpen w2 n2 (pluginOpen w1 n1 s).2.1).1 ≠ Outcome.panic ∧
      (∀ q, Event.peOpen q ∉ (pluginOpen w2 n2 (pluginOpen w1 n1 s).2.1).2.2) ∧
      (∀ q, Event.loadLibrary q ∉ (pluginOpen w2 n2 (pluginOpen w1 n1 s).2.1).2.2) ∧
      (∀ pc, Event.initCall pc ∉ (pluginOpen w2 n2 (pluginOpen w1 n1 s).2.1).2.2) ∧
      (∀ q a, Event.publish q a ∉ (pluginOpen w2 n2 (pluginOpen w1 n1 s).2.1).2.2) := by
  have hstate : (pluginOpen w1 n1 s).2.1.locked = false ∧
      (pluginOpen w1 n1 s).2.1.plugins.get path = some p ∧
      ∃ r, (pluginOpen w1 n1 s).2.1.heap[p]? = some r ∧
        ((∃ po pe, (pluginOpen w1 n1 s).1 = Outcome.ret po pe) → r.loaded = true) := by
    rcases hfirst with hpub | hret
    · obtain ⟨hl, hg, r, hp, _, hr⟩ := pluginOpen_published_state w1 n1 path s p hpub
      exact ⟨hl, hg, r, hp, hr⟩
    · obtain ⟨hl, hg, r, hp, hr⟩ := pluginOpen_success_state w1 n1 path s p h1 hret
      exact ⟨hl, hg, r, hp, fun _ => hr⟩
  obtain ⟨hl, hg, r, hp, hr⟩ := hstate
  have hrun := pluginOpen_on_registered w2 n2 path (pluginOpen w1 n1 s).2.1 p r h2 hl hg hp
  refine ⟨hg, ⟨r, hp, hr, ?_, ?_⟩, ?_, ?_, ?_, ?_, ?_, ?_, ?_, ?_⟩
  · intro hld; rw [hrun]; simp [hld]
  · intro hld; rw [hrun]; simp [hld]
  · intro hret; rw [hrun]; simp [hr hret]
  all_goals
    rw [hrun]
    by_cases hld : r.loaded = true <;> simp [hld]

/-- C4, evaluated: `link.dll` and `real.dll` name the same file; the load of `link.dll`
publishes record `0` and registers it under `real.dll`, and the open of `real.dll` returns
record `0` again and does nothing but lock, unlock and receive. -/
theorem open_same_canonical_path_same_record_witness :
    (pluginOpen wA "link.dll" s0).2.1.plugins.get "real.dll" = some 0 ∧
      pluginOpen wA "real.dll" (pluginOpen wA "link.dll" s0).2.1 =
        (Outcome.ret (some 0) none, (pluginOpen wA "link.dll" s0).2.1,
          [Event.evalSymlinks "real.dll", Event.lock, Event.unlock, Event.recvLoaded 0]) :=
  ⟨(open_same_canonical_path_same_record wA wA "link.dll" "real.dll" "real.dll" s0 0
      rfl rfl (Or.inl (by decide))).1,
    (open_same_canonical_path_same_record wA wA "link.dll" "real.dll" "real.dll" s0 0
      rfl rfl (Or.inl (by decide))).2.2.1 ⟨some 0, none, by decide⟩⟩

/-! ## Ordering of publication, unlock, initializer and symbol resolution -/

theorem lockHeld_append (a b : List Event) (x : Bool) :
    lockHeld (a ++ b) x = lockHeld b (lockHeld a x) := by
  induction a generalizing x with
  | nil => rfl
  | cons e a ih => cases e <;> simp [lockHeld, ih]

theorem lockHeld_of_no_lock (a : List Event) (x : Bool)
    (h : ∀ e ∈ a, e ≠ Event.lock ∧ e ≠ Event.unlock) : lockHeld a x = x := by
  induction a generalizing x with
  | nil => rfl
  | cons e a ih =>
    have he := h e (List.mem_cons_self _ _)
    have ih2 := ih x (fun e2 he2 => h e2 (List.mem_cons_of_mem _ he2))
    cases e <;> first | exact absurd rfl he.1 | exact absurd rfl he.2 | simpa [lockHeld] using ih2

/-- An event that does not occur in the first part of a trace occurs, if at all, in the
second part. -/
theorem split_after (Q R a post : List Event) (e : Event) (h : Q ++ R = a ++ e :: post)
    (hn : e ∉ Q) : ∃ a2, a = Q ++ a2 ∧ R = a2 ++ e :: post := by
  rcases List.append_eq_append_iff.mp h with ⟨a2, ha, hR⟩ | ⟨c, hQ, hc⟩
  · exact ⟨a2, ha, hR⟩
  · cases c with
    | nil =>
      simp only [List.nil_append] at hc
      exact ⟨[], by simp [hQ], by simp [hc]⟩
    | cons x c2 =>
      simp only [List.cons_append, List.cons.injEq] at hc
      obtain ⟨rfl, _⟩ := hc
      exact absurd (by rw [hQ]; simp) hn

/-- Shape of every trace of `open`: either it contains no initializer call and no symbol
resolution at all, or it consists of the steps up to publication and unlock, followed by
steps none of which touches the lock. -/
theorem pluginOpen_trace_shape (w : World) (name : String) (s : LoaderState) :
    (∀ e ∈ (pluginOpen w name s).2.2, e.isResolveOrInit = false) ∨
    ∃ path p R, (pluginOpen w name s).2.2 =
        [Event.evalSymlinks name, Event.lock, Event.peOpen path, Event.importedSymbols path,
          Event.peClose path, Event.loadLibrary path, Event.publish path p, Event.unlock] ++ R ∧
      ∀ e ∈ R, e ≠ Event.lock ∧ e ≠ Event.unlock := by
  rcases pluginOpen_cases w name s with
    ⟨e1, _, h2⟩ | ⟨path1, _, _, h3⟩ | ⟨path1, p1, _, _, _, h4⟩ |
    ⟨path1, msg, tr, _, _, _, htr, h5⟩ | ⟨path1, names, h, _, _, _, h5, _⟩
  · left; rw [h2]; simp [Event.isResolveOrInit]
  · left; rw [h3]; simp [Event.isResolveOrInit]
  · left; rw [h4]
    rcases s.heap[p1]? with _ | r
    · simp [Event.isResolveOrInit]
    · by_cases hr : r.loaded = true <;> simp [hr, Event.isResolveOrInit]
  · left; rw [h5]
    intro e he
    simp only [List.cons_append, List.nil_append, List.mem_cons] at he
    rcases he with rfl | rfl | rfl | he
    · rfl
    · rfl
    · rfl
    · rcases htr e he with rfl | rfl | rfl | rfl <;> rfl
  · right
    obtain ⟨tr, htr, hsh | hsh⟩ := openLoaded_shape w name path1 names h { s with locked := true }
    · refine ⟨path1, s.heap.length,
        [Event.getProcAddress h (trimDll name ++ ".init")] ++
          (if w.getProcAddress h (trimDll name ++ ".init") ≠ 0 then
            [Event.initCall (w.getProcAddress h (trimDll name ++ ".init"))] else []) ++ tr,
        ?_, ?_⟩
      · rw [h5]; simp only; rw [hsh.2.1]; simp [publishedSteps]
      · intro e he
        simp only [List.mem_append, List.mem_singleton] at he
        rcases he with (rfl | he) | he
        · simp
        · split at he
          · simp only [List.mem_singleton] at he; subst he; simp
          · simp at he
        · exact ⟨(isSymbolStep_not_lock e (htr e he)).1, (isSymbolStep_not_lock e (htr e he)).2.1⟩
    · refine ⟨path1, s.heap.length,
        [Event.getProcAddress h (trimDll name ++ ".init")] ++
          (if w.getProcAddress h (trimDll name ++ ".init") ≠ 0 then
            [Event.initCall (w.getProcAddress h (trimDll name ++ ".init"))] else []) ++ tr ++
          [Event.closeLoaded s.heap.length],
        ?_, ?_⟩
      · rw [h5]; simp only; rw [hsh.2.1]; simp [publishedSteps]
      · intro e he
        simp only [List.mem_append, List.mem_singleton] at he
        rcases he with ((rfl | he) | he) | rfl
        · simp
        · split at he
          · simp only [List.mem_singleton] at he; subst he; simp
          · simp at he
        · exact ⟨(isSymbolStep_not_lock e (htr e he)).1, (isSymbolStep_not_lock e (htr e he)).2.1⟩
        · simp

/-- C5: in every execution of `open`, each initializer call is preceded by the insertion
of the placeholder into the registry and then by the release of the registry lock, in
this order; and at every initializer call and at every symbol resolution
(`GetProcAddress`) the call does not hold the registry lock. -/
theorem open_publish_unlock_then_init_call (w : World) (name : String) (s : LoaderState) :
    (∀ a b pc, (pluginOpen w name s).2.2 = a ++ Event.initCall pc :: b →
      ∃ a1 a3 path p, a = a1 ++ Event.publish path p :: Event.unlock :: a3 ∧
        (∀ e ∈ a3, e ≠ Event.lock)) ∧
    (∀ a e b, (pluginOpen w name s).2.2 = a ++ e :: b → e.isResolveOrInit = true →
      lockHeld a false = false) := by
  rcases pluginOpen_trace_shape w name s with hno | ⟨path, p, R, hQ, hR⟩
  · constructor
    · intro a b pc hab
      have := hno (Event.initCall pc) (by rw [hab]; simp)
      simp [Event.isResolveOrInit] at this
    · intro a e b hab he
      have := hno e (by rw [hab]; simp)
      rw [he] at this; cases this
  · constructor
    · intro a b pc hab
      rw [hQ] at hab
      obtain ⟨a2, ha, hR2⟩ := split_after _ _ _ _ _ hab (by simp)
      refine ⟨[Event.evalSymlinks name, Event.lock, Event.peOpen path,
        Event.importedSymbols path, Event.peClose path, Event.loadLibrary path], a2, path, p,
        by rw [ha]; simp, ?_⟩
      intro e he
      exact (hR e (by rw [hR2]; simp [he])).1
    · intro a e b hab he
      rw [hQ] at hab
      obtain ⟨a2, ha, hR2⟩ := split_after _ _ _ _ _ hab (by
        intro hmem
        simp only [List.mem_cons, List.mem_singleton] at hmem
        rcases hmem with rfl | rfl | rfl | rfl | rfl | rfl | rfl | rfl | hmem <;>
          first | cases he | simp at hmem)
      rw [ha, lockHeld_append]
      have h8 : lockHeld [Event.evalSymlinks name, Event.lock, Event.peOpen path,
          Event.importedSymbols path, Event.peClose path, Event.loadLibrary path,
          Event.publish path p, Event.unlock] false = false := rfl
      rw [h8]
      exact lockHeld_of_no_lock a2 false (fun e2 he2 => hR e2 (by rw [hR2]; simp [he2]))

/-! ## The completion signal -/

/-- C6: for every call of `open` that publishes a placeholder record and returns, the
return is the success return of that record, and the record's `loaded` channel is closed
exactly once during the call: after the publication, as the last step before returning,
and never before, so that the published record is left completed. -/
theorem open_closes_loaded_exactly_once (w : World) (name path : String) (s : LoaderState)
    (p : Ptr) (po : Option Ptr) (pe : Option String)
    (hpub : Event.publish path p ∈ (pluginOpen w name s).2.2)
    (hret : (pluginOpen w name s).1 = Outcome.ret po pe) :
    po = some p ∧ pe = none ∧
      (pluginOpen w name s).2.2.count (Event.closeLoaded p) = 1 ∧
      (∃ a b, (pluginOpen w name s).2.2
          = a ++ Event.publish path p :: b ++ [Event.closeLoaded p] ∧
        Event.closeLoaded p ∉ a ∧ Event.closeLoaded p ∉ b) ∧
      (pluginOpen w name s).2.1.plugins.get path = some p ∧
      ∃ r, (pluginOpen w name s).2.1.heap[p]? = some r ∧ r.loaded = true := by
  rcases pluginOpen_cases w name s with
    ⟨e1, _, h2⟩ | ⟨path1, _, _, h3⟩ | ⟨path1, p1, _, _, _, h4⟩ |
    ⟨path1, msg, tr, _, _, _, htr, h5⟩ | ⟨path1, names, h, _, _, _, h5, _⟩
  · rw [h2] at hpub; simp at hpub
  · rw [h3] at hpub; simp at hpub
  · rw [h4] at hpub
    rcases hh : s.heap[p1]? with _ | r
    · simp [hh] at hpub
    · by_cases hr : r.loaded = true <;> simp [hh, hr] at hpub
  · rw [h5] at hpub
    simp only [List.cons_append, List.nil_append, List.mem_cons] at hpub
    rcases hpub with hpub | hpub | hpub | hpub
    · cases hpub
    · cases hpub
    · cases hpub
    · rcases htr _ hpub with h | h | h | h <;> cases h
  · obtain ⟨tr, htr, hsh | hsh⟩ := openLoaded_shape w name path1 names h { s with locked := true }
    · rw [h5] at hret; simp only at hret; rw [hsh.1] at hret; cases hret
    · obtain ⟨ho, htrace, _, hpl, r, hr1, hr2, _⟩ := hsh
      simp only at ho htrace hpl hr1
      rw [h5] at hpub hret ⊢
      simp only at hpub hret ⊢
      rw [ho] at hret
      simp only [Outcome.ret.injEq] at hret
      rw [htrace] at hpub ⊢
      have hnc : ∀ e ∈ tr, e ≠ Event.closeLoaded s.heap.length ∧ e ≠ Event.publish path p :=
        fun e he => ⟨(isSymbolStep_not_lock e (htr e he)).2.2.1 _,
          (isSymbolStep_not_lock e (htr e he)).2.2.2 _ _⟩
      have hpp : path = path1 ∧ p = s.heap.length := by
        rcases List.mem_append.1 hpub with k | k
        · simp at k
        · rcases List.mem_append.1 k with k | k
          · rcases List.mem_append.1 k with k | k
            · unfold publishedSteps at k
              rcases List.mem_append.1 k with k | k
              · simpa using k
              · split at k <;> simp at k
            · exact absurd rfl (hnc _ k).2
          · simp at k
      obtain ⟨rfl, rfl⟩ := hpp
      have hb : Event.closeLoaded s.heap.length ∉
          [Event.unlock, Event.getProcAddress h (trimDll name ++ ".init")] ++
            (if w.getProcAddress h (trimDll name ++ ".init") ≠ 0 then
              [Event.initCall (w.getProcAddress h (trimDll name ++ ".init"))] else []) ++ tr := by
        intro hmem
        rcases List.mem_append.1 hmem with k | k
        · rcases List.mem_append.1 k with k | k
          · simp at k
          · split at k <;> simp at k
        · exact absurd rfl (hnc _ k).1
      have ha : Event.closeLoaded s.heap.length ∉
          [Event.evalSymlinks name, Event.lock, Event.peOpen path,
            Event.importedSymbols path, Event.peClose path, Event.loadLibrary path] := by
        simp
      have hdecomp :
          [Event.evalSymlinks name, Event.lock, Event.peOpen path, Event.importedSymbols path,
              Event.peClose path, Event.loadLibrary path] ++
            (publishedSteps w name path h s.heap.length ++ tr ++
              [Event.closeLoaded s.heap.length])
          = [Event.evalSymlinks name, Event.lock, Event.peOpen path,
              Event.importedSymbols path, Event.peClose path, Event.loadLibrary path] ++
            Event.publish path s.heap.length ::
              ([Event.unlock, Event.getProcAddress h (trimDll name ++ ".init")] ++
                (if w.getProcAddress h (trimDll name ++ ".init") ≠ 0 then
                  [Event.initCall (w.getProcAddress h (trimDll name ++ ".init"))] else [])
                ++ tr) ++ [Event.closeLoaded s.heap.length] := by
        simp [publishedSteps]
      refine ⟨hret.1.symm, hret.2.symm, ?_, ⟨_, _, hdecomp, ha, hb⟩, ?_, r, hr1, hr2⟩
      · rw [hdecomp]
        simp only [List.count_append, List.count_cons, List.count_nil,
          List.count_eq_zero_of_not_mem ha, List.count_eq_zero_of_not_mem hb]
        simp
      · rw [hpl]; exact GoMap.get_set_self _ _ _

/-- C6, evaluated: the load of `link.dll` publishes record `0` and closes its channel
exactly once. -/
theorem open_closes_loaded_exactly_once_witness :
    (pluginOpen wA "link.dll" s0).2.2.count (Event.closeLoaded 0) = 1 :=
  (open_closes_loaded_exactly_once wA "link.dll" "real.dll" s0 0 (some 0) none
    (by decide) (by decide)).2.2.1

/-! ## What the symbol mapping of a loaded module contains -/

theorem GoMap.get_set_self_cons {V : Type} (m : GoMap V) (k : String) (v : V) :
    GoMap.get ((k, v) :: m) k = some v := by
  simp [GoMap.get, List.lookup]

theorem GoMap.get_cons_ne {V : Type} (m : GoMap V) (a k : String) (b : V) (h : k ≠ a) :
    GoMap.get ((a, b) :: m) k = GoMap.get m k := by
  have hb : (k == a) = false := by simpa using h
  simp [GoMap.get, List.lookup, hb]

theorem GoMap.delete_cons_self {V : Type} (m : GoMap V) (k : String) (v : V) :
    GoMap.delete ((k, v) :: m) k = GoMap.delete m k := by
  simp [GoMap.delete, List.filter_cons]

theorem GoMap.delete_cons_ne {V : Type} (m : GoMap V) (a k : String) (b : V) (h : a ≠ k) :
    GoMap.delete ((a, b) :: m) k = (a, b) :: GoMap.delete m k := by
  simp [GoMap.delete, List.filter_cons, h]

theorem GoMap.get_delete_self {V : Type} (m : GoMap V) (k : String) :
    (GoMap.delete m k).get k = none := by
  induction m with
  | nil => simp [GoMap.delete, GoMap.get]
  | cons kv m ih =>
    obtain ⟨a, b⟩ := kv
    by_cases hak : a = k
    · subst hak; rw [GoMap.delete_cons_self]; exact ih
    · rw [GoMap.delete_cons_ne m a k b hak, GoMap.get_cons_ne _ a k b (fun e => hak e.symm)]
      exact ih

theorem GoMap.get_delete {V : Type} (m : GoMap V) (k k2 : String) (v : V)
    (h : (GoMap.delete m k).get k2 = some v) : m.get k2 = some v := by
  induction m with
  | nil => simp [GoMap.delete, GoMap.get] at h
  | cons kv m ih =>
    obtain ⟨a, b⟩ := kv
    by_cases hak : a = k
    · subst hak
      rw [GoMap.delete_cons_self] at h
      by_cases hk : k2 = a
      · subst hk; rw [GoMap.get_delete_self] at h; cases h
      · rw [GoMap.get_cons_ne m a k2 b hk]; exact ih h
    · rw [GoMap.delete_cons_ne m a k b hak] at h
      by_cases hk : k2 = a
      · subst hk
        rw [GoMap.get_set_self_cons] at h ⊢
        exact h
      · rw [GoMap.get_cons_ne _ a k2 b hk] at h
        rw [GoMap.get_cons_ne m a k2 b hk]; exact ih h

theorem GoMap.get_set {V : Type} (m : GoMap V) (k k2 : String) (v0 v : V)
    (h : (GoMap.set m k v0).get k2 = some v) : (k2 = k ∧ v = v0) ∨ m.get k2 = some v := by
  by_cases hk : k2 = k
  · subst hk
    rw [GoMap.get_set_self] at h
    exact Or.inl ⟨rfl, (Option.some.inj h).symm⟩
  · right
    apply GoMap.get_delete m k k2 v
    rw [GoMap.set, GoMap.get_cons_ne _ k k2 v0 hk] at h
    exact h

/-- Every entry of the record's symbol mapping after the loop was either there before, or
is the `GetProcAddress` result for a listed name, stored under that name's key. -/
theorem symLoop_syms (w : World) (h : Handle) (name : String) (p : Ptr) :
    ∀ (names : List String) (s : LoaderState) (r2 : Plugin) (k : String) (v : Symbol),
      (symLoop w h name p none names s).2.1.heap[p]? = some r2 → r2.syms.get k = some v →
      (∃ r, s.heap[p]? = some r ∧ r.syms.get k = some v) ∨
        (v = Symbol.uintptr (w.getProcAddress h (name ++ "." ++ k)) ∧
          ∃ n ∈ names, k = symKey n) := by
  intro names
  induction names with
  | nil =>
    intro s r2 k v h1 h2
    exact Or.inl ⟨r2, by simpa [symLoop] using h1, h2⟩
  | cons n rest ih =>
    intro s r2 k v h1 h2
    rcases hn : n.data with _ | ⟨c, cs⟩
    · simp only [symLoop, hn] at h1
      exact Or.inl ⟨r2, h1, h2⟩
    · simp only [symLoop, hn] at h1
      have hkey : symKey n = (if (c == '.') = true then String.mk cs else n) := by
        simp [symKey, hn]
      rcases ih _ r2 k v h1 h2 with ⟨r1, hr1, hr1k⟩ | ⟨hv, m, hm, hk⟩
      · simp only [LoaderState.setSym, getElem?_updateAt, if_true] at hr1
        rcases hs1 : (if (c == '.') = true then s.deleteSym p n else s).heap[p]? with _ | r0
        · rw [hs1] at hr1; cases hr1
        · rw [hs1] at hr1
          simp only [Option.map_some', Option.some.injEq] at hr1
          subst hr1
          rcases GoMap.get_set _ _ _ _ _ hr1k with ⟨hk, hv⟩ | hold
          · right
            refine ⟨?_, n, List.mem_cons_self _ _, by rw [hkey]; exact hk⟩
            rw [hv, hk]
          · left
            by_cases hc : (c == '.') = true
            · simp only [hc, if_true, LoaderState.deleteSym, getElem?_updateAt] at hs1
              rcases hs0 : s.heap[p]? with _ | r
              · rw [hs0] at hs1; cases hs1
              · rw [hs0] at hs1
                simp only [Option.map_some', Option.some.injEq] at hs1
                subst hs1
                exact ⟨r, rfl, GoMap.get_delete _ _ _ _ hold⟩
            · simp only [hc, Bool.false_eq_true, if_false] at hs1
              exact ⟨r0, hs1, hold⟩
      · exact Or.inr ⟨hv, m, List.mem_cons_of_mem _ hm, hk⟩

/-- After a fresh load, every entry of the new record's symbol mapping is the
`GetProcAddress` result for a name listed in the image, stored under that name's key: the
mapping has no key that the image does not list, and an unresolved listed name is stored
with the zero address. -/
theorem pluginOpen_symbols_from_image (w : World) (name path : String) (s : LoaderState)
    (f : PEFile) (names : List String) (hdl : Handle) (r : Plugin) (k : String) (v : Symbol)
    (hres : w.evalSymlinks name = Except.ok path) (hl : s.locked = false)
    (hg : s.plugins.get path = none) (hpe : w.peOpen path = Except.ok f)
    (hi : f.importedSymbols = Except.ok names) (hll : w.loadLibrary path = Except.ok hdl)
    (hr : (pluginOpen w name s).2.1.heap[s.heap.length]? = some r)
    (hk : r.syms.get k = some v) :
    v = Symbol.uintptr (w.getProcAddress hdl (trimDll name ++ "." ++ k)) ∧
      ∃ n ∈ names, k = symKey n := by
  have hloop := symLoop_syms w hdl (trimDll name) s.heap.length names
    { locked := false
      plugins := GoMap.set s.plugins path s.heap.length
      heap := s.heap ++ [{ pluginpath := path, loaded := false, syms := [] }] }
  have hinit : ∀ r0 : Plugin,
      (s.heap ++ [({ pluginpath := path, loaded := false, syms := [] } : Plugin)])[s.heap.length]?
        = some r0 → r0.syms.get k = some v → False := by
    intro r0 h0 hk0
    simp only [List.getElem?_append_right (le_refl _), Nat.sub_self, List.getElem?_cons_zero,
      Option.some.injEq] at h0
    subst h0
    simp [GoMap.get] at hk0
  have hfin : ∀ r2 : Plugin,
      (symLoop w hdl (trimDll name) s.heap.length none names
        { locked := false
          plugins := GoMap.set s.plugins path s.heap.length
          heap := s.heap ++ [{ pluginpath := path, loaded := false, syms := [] }] }).2.1.heap[
            s.heap.length]? = some r2 → r2.syms.get k = some v →
      v = Symbol.uintptr (w.getProcAddress hdl (trimDll name ++ "." ++ k)) ∧
        ∃ n ∈ names, k = symKey n := by
    intro r2 h2 hk2
    rcases hloop r2 k v h2 hk2 with ⟨r0, h0, hk0⟩ | hgood
    · exact absurd hk0 (fun hk0 => hinit r0 h0 hk0)
    · exact hgood
  have hs : ({ locked := true, plugins := s.plugins, heap := s.heap } : LoaderState).heap
      = s.heap := rfl
  simp only [pluginOpen, hres, hl, hg, hpe, hi, hll, Bool.false_eq_true, if_false,
    openLoaded] at hr
  rcases hsl : symLoop w hdl (trimDll name) s.heap.length none names
    { locked := false
      plugins := GoMap.set s.plugins path s.heap.length
      heap := s.heap ++ [{ pluginpath := path, loaded := false, syms := [] }] }
    with ⟨o, s2, tr⟩
  rw [hsl] at hr hfin
  simp only at hfin
  rcases o with _ | o
  · simp only at hr
    rcases hq : s2.heap[s.heap.length]? with _ | r3
    · rw [hq] at hr; simp only at hr; rw [hq] at hr; cases hr
    · rw [hq] at hr
      simp only at hr
      by_cases hld : r3.loaded = true
      · simp only [hld, if_true] at hr
        rw [hq] at hr
        simp only [Option.some.injEq] at hr
        subst hr
        exact hfin r3 hq hk
      · simp only [hld, Bool.false_eq_true, if_false, LoaderState.closeLoaded,
          getElem?_updateAt, if_true, hq, Option.map_some', Option.some.injEq] at hr
        subst hr
        exact hfin r3 hq hk
  · simp only at hr
    exact hfin r hr hk

/-- A call of `open` panics only when the registry points at no record or when the image
lists an empty symbol name. -/
theorem pluginOpen_panic_cause (w : World) (name : String) (s : LoaderState)
    (hp : (pluginOpen w name s).1 = Outcome.panic) :
    (∃ path p, s.plugins.get path = some p ∧ s.heap[p]? = none) ∨
      ∃ path f names, w.peOpen path = Except.ok f ∧ f.importedSymbols = Except.ok names ∧
        ∃ n ∈ names, n.data = [] := by
  rcases pluginOpen_cases w name s with
    ⟨e1, _, h2⟩ | ⟨path1, _, _, h3⟩ | ⟨path1, p1, _, _, hg, h4⟩ |
    ⟨path1, msg, tr, _, _, _, _, h5⟩ | ⟨path1, names, h, _, _, _, h5, f, hpe, hi, _⟩
  · rw [h2] at hp; cases hp
  · rw [h3] at hp; cases hp
  · left
    rw [h4] at hp
    rcases hh : s.heap[p1]? with _ | r
    · exact ⟨path1, p1, hg, hh⟩
    · by_cases hr : r.loaded = true <;> simp [hh, hr] at hp
  · rw [h5] at hp; cases hp
  · right
    rw [h5] at hp
    simp only at hp
    obtain ⟨tr, _, hsh | hsh⟩ := openLoaded_shape w name path1 names h { s with locked := true }
    · exact ⟨path1, f, names, hpe, hi, hsh.2.2.1⟩
    · rw [hsh.1] at hp; cases hp

end GoPlugin

namespace GoNet

/-! ## Handle discipline of the adoption functions -/

theorem closeCount_append (s : Handle) (a b : List NetEvent) :
    closeCount s (a ++ b) = closeCount s a + closeCount s b := by
  simp only [closeCount, List.count_append]; omega

theorem closeCount_fdClose (s : Handle) : closeCount s [NetEvent.fdClose s] = 1 := by
  simp [closeCount]

/-- The tail of `newFileFD`: an error return closes the handle once, a success return
does not close it and hands it to the descriptor. -/
theorem newFileFDTail_closes (w : NetWorld) (s : Handle) (family : Family) (sotype : Int)
    (lsa rsa : Sockaddr) :
    (∀ e, (newFileFDTail w s family sotype lsa rsa).1 = Result.err e →
      closeCount s (newFileFDTail w s family sotype lsa rsa).2 = 1) ∧
    (∀ fd, (newFileFDTail w s family sotype lsa rsa).1 = Result.ok fd →
      closeCount s (newFileFDTail w s family sotype lsa rsa).2 = 0 ∧ fd.sysfd = s ∧
        fd.family = family ∧ fd.sotype = sotype) := by
  rcases hf : w.newFDFails s family sotype with _ | e1
  · rcases hnw : (w.addrFunc family sotype lsa).network with _ | net
    · simp [newFileFDTail, newFD, hf, hnw]
    · rcases hi : w.pfdInit s with _ | e2
      · simp [newFileFDTail, newFD, hf, hnw, hi, closeCount, NetFD.setAddr]
      · simp [newFileFDTail, newFD, hf, hnw, hi, closeCount]
  · simp [newFileFDTail, newFD, hf, closeCount]

/-- The function `newFileFD`: once the handle has been duplicated, an error return closes
the duplicate once, and a success return leaves it open in the returned descriptor. -/
theorem newFileFD_closes (w : NetWorld) (f s : Handle) (hd : duplicated w f = some s) :
    (∀ e, (newFileFD w f).1 = Result.err e → closeCount s (newFileFD w f).2 = 1) ∧
    (∀ fd, (newFileFD w f).1 = Result.ok fd →
      closeCount s (newFileFD w f).2 = 0 ∧ fd.sysfd = s) := by
  rcases hv : w.getHandleInformation f with _ | e0
  · rcases hdup : w.duplicateHandle f with e1 | s1
    · simp [duplicated, hv, hdup] at hd
    · simp only [duplicated, hv, hdup, Option.some.injEq] at hd
      subst hd
      rcases hn : w.setNonblock s1 with _ | e2
      · rcases hg : w.getsockoptInt s1 with e3 | sotype
        · simp [newFileFD, dupCloseOnExec, hv, hdup, hn, hg, closeCount]
        · have htail := fun fam => newFileFDTail_closes w s1 fam sotype (w.getsockname s1).1
            (w.getpeername s1).1
          rcases hl : (w.getsockname s1).1 with _ | ⟨port, addr⟩ | ⟨port, zone, addr⟩ | name | tag
          · simp [newFileFD, dupCloseOnExec, hv, hdup, hn, hg, hl, closeCount]
          · rw [hl] at htail
            simp only [newFileFD, dupCloseOnExec, hv, hdup, hn, hg, hl, closeCount_append]
            refine ⟨fun e he => ?_, fun fd hfd => ?_⟩
            · rw [(htail Family.AF_INET).1 e he]; simp [closeCount]
            · obtain ⟨h1, h2, _⟩ := (htail Family.AF_INET).2 fd hfd
              rw [h1]; simp [closeCount, h2]
          · rw [hl] at htail
            simp only [newFileFD, dupCloseOnExec, hv, hdup, hn, hg, hl, closeCount_append]
            refine ⟨fun e he => ?_, fun fd hfd => ?_⟩
            · rw [(htail Family.AF_INET6).1 e he]; simp [closeCount]
            · obtain ⟨h1, h2, _⟩ := (htail Family.AF_INET6).2 fd hfd
              rw [h1]; simp [closeCount, h2]
          · simp [newFileFD, dupCloseOnExec, hv, hdup, hn, hg, hl, closeCount]
          · simp [newFileFD, dupCloseOnExec, hv, hdup, hn, hg, hl, closeCount]
      · simp [newFileFD, dupCloseOnExec, hv, hdup, hn, closeCount]
  · simp [duplicated, hv] at hd

/-- C7: once the handle has been duplicated, every error return of `newFileFD`, `fileConn`,
`fileListener` and `filePacketConn` has closed the duplicate exactly once, and every
success return has not closed it and returns an endpoint whose descriptor owns it. -/
theorem adopt_closes_duplicate_exactly_once (w : NetWorld) (f s : Handle)
    (hd : duplicated w f = some s) :
    ((∀ e, (newFileFD w f).1 = Result.err e → closeCount s (newFileFD w f).2 = 1) ∧
      (∀ fd, (newFileFD w f).1 = Result.ok fd →
        closeCount s (newFileFD w f).2 = 0 ∧ fd.sysfd = s)) ∧
    ((∀ e, (fileConn w f).1 = Result.err e → closeCount s (fileConn w f).2 = 1) ∧
      (∀ c, (fileConn w f).1 = Result.ok c →
        closeCount s (fileConn w f).2 = 0 ∧ c.fd.sysfd = s)) ∧
    ((∀ e, (fileListener w f).1 = Result.err e → closeCount s (fileListener w f).2 = 1) ∧
      (∀ l, (fileListener w f).1 = Result.ok l →
        closeCount s (fileListener w f).2 = 0 ∧ l.fd.sysfd = s)) ∧
    ((∀ e, (filePacketConn w f).1 = Result.err e →
        closeCount s (filePacketConn w f).2 = 1) ∧
      (∀ c, (filePacketConn w f).1 = Result.ok c →
        closeCount s (filePacketConn w f).2 = 0 ∧ c.fd.sysfd = s)) := by
  have h := newFileFD_closes w f s hd
  refine ⟨h, ?_, ?_, ?_⟩
  · rcases hr : newFileFD w f with ⟨res, tr⟩
    rw [hr] at h
    cases res with
    | ok fd =>
      obtain ⟨h0, hs⟩ := h.2 fd rfl
      simp only at h0
      cases hla : fd.laddr <;>
        simp [fileConn, hr, hla, closeCount_append, h0, hs, closeCount_fdClose, Conn.fd]
    | err e => simpa [fileConn, hr] using h.1 e rfl
    | panic => simp [fileConn, hr]
  · rcases hr : newFileFD w f with ⟨res, tr⟩
    rw [hr] at h
    cases res with
    | ok fd =>
      obtain ⟨h0, hs⟩ := h.2 fd rfl
      simp only at h0
      cases hla : fd.laddr <;>
        simp [fileListener, hr, hla, closeCount_append, h0, hs, closeCount_fdClose, Listener.fd]
    | err e => simpa [fileListener, hr] using h.1 e rfl
    | panic => simp [fileListener, hr]
  · rcases hr : newFileFD w f with ⟨res, tr⟩
    rw [hr] at h
    cases res with
    | ok fd =>
      obtain ⟨h0, hs⟩ := h.2 fd rfl
      simp only at h0
      cases hla : fd.laddr <;>
        simp [filePacketConn, hr, hla, closeCount_append, h0, hs, closeCount_fdClose, PacketConn.fd]
    | err e => simpa [filePacketConn, hr] using h.1 e rfl
    | panic => simp [filePacketConn, hr]

/-- C7, evaluated: adopting handle `5` of a Unix-domain socket fails after the duplicate
`105` has been closed once; adopting a bound stream socket succeeds with the duplicate
still open. -/
theorem adopt_closes_duplicate_exactly_once_witness :
    closeCount 105 (fileConn wUnix 5).2 = 1 ∧ closeCount 105 (fileConn (wBound 1) 5).2 = 0 :=
  ⟨(adopt_closes_duplicate_exactly_once wUnix 5 105 (by decide)).2.1.1
      (GoError.errno Errno.EWINDOWS) (by decide),
    ((adopt_closes_duplicate_exactly_once (wBound 1) 5 105 (by decide)).2.1.2
      (Conn.tcpConn
        { sysfd := 105, family := Family.AF_INET, sotype := 1, net := "tcp",
          laddr := Addr.tcp [127, 0, 0, 1] 8080, raddr := Addr.nil })
      (by decide)).1⟩

/-! ## Classification by the local socket address -/

/-- What `newFileFD` does once validation, duplication, set-nonblocking and getsockopt have
succeeded: it queries both addresses and branches on the local one. -/
theorem newFileFD_after_getsockopt (w : NetWorld) (f s : Handle) (sotype : Int)
    (hv : w.getHandleInformation f = none) (hd : w.duplicateHandle f = Except.ok s)
    (hn : w.setNonblock s = none) (hg : w.getsockoptInt s = Except.ok sotype) :
    newFileFD w f =
      (match (w.getsockname s).1 with
        | Sockaddr.inet4 _ _ =>
          ((newFileFDTail w s Family.AF_INET sotype (w.getsockname s).1 (w.getpeername s).1).1,
            [NetEvent.getHandleInformation f, NetEvent.duplicateHandle f,
              NetEvent.setNonblock s, NetEvent.getsockopt s, NetEvent.getsockname s,
              NetEvent.getpeername s] ++
            (newFileFDTail w s Family.AF_INET sotype (w.getsockname s).1
              (w.getpeername s).1).2)
        | Sockaddr.inet6 _ _ _ =>
          ((newFileFDTail w s Family.AF_INET6 sotype (w.getsockname s).1 (w.getpeername s).1).1,
            [NetEvent.getHandleInformation f, NetEvent.duplicateHandle f,
              NetEvent.setNonblock s, NetEvent.getsockopt s, NetEvent.getsockname s,
              NetEvent.getpeername s] ++
            (newFileFDTail w s Family.AF_INET6 sotype (w.getsockname s).1
              (w.getpeername s).1).2)
        | Sockaddr.unix _ =>
          (Result.err (GoError.errno Errno.EWINDOWS),
            [NetEvent.getHandleInformation f, NetEvent.duplicateHandle f,
              NetEvent.setNonblock s, NetEvent.getsockopt s, NetEvent.getsockname s,
              NetEvent.getpeername s, NetEvent.closeFunc s])
        | _ =>
          (Result.err (GoError.errno Errno.EPROTONOSUPPORT),
            [NetEvent.getHandleInformation f, NetEvent.duplicateHandle f,
              NetEvent.setNonblock s, NetEvent.getsockopt s, NetEvent.getsockname s,
              NetEvent.getpeername s, NetEvent.closeFunc s])) := by
  simp only [newFileFD, dupCloseOnExec, hv, hd, hn, hg]
  cases (w.getsockname s).1 <;> rfl

theorem newFileFDTail_family (w : NetWorld) (s : Handle) (family : Family) (sotype : Int)
    (lsa rsa : Sockaddr) :
    NetEvent.newFD s family sotype ∈ (newFileFDTail w s family sotype lsa rsa).2 ∧
      ∀ fd, (newFileFDTail w s family sotype lsa rsa).1 = Result.ok fd → fd.family = family :=
  ⟨by
    rcases hf : w.newFDFails s family sotype with _ | e1
    · rcases hnw : (w.addrFunc family sotype lsa).network with _ | net
      · simp [newFileFDTail, newFD, hf, hnw]
      · rcases hi : w.pfdInit s with _ | e2 <;> simp [newFileFDTail, newFD, hf, hnw, hi]
    · simp [newFileFDTail, newFD, hf],
    fun fd h => ((newFileFDTail_closes w s family sotype lsa rsa).2 fd h).2.2.1⟩

/-- C8: when validation, duplication, set-nonblocking and getsockopt all succeed, the
concrete type of the local socket address decides what `newFileFD` does: for an Internet v4
address the descriptor is constructed with family `AF_INET`, for an Internet v6 address
with `AF_INET6`; a Unix-domain address yields `EWINDOWS`; a nil or any other address yields
`EPROTONOSUPPORT`.  Consequently, for a Unix-domain local address `fileConn`,
`fileListener` and `filePacketConn` all fail with `EWINDOWS`. -/
theorem newFileFD_classifies_local_sockaddr (w : NetWorld) (f s : Handle) (sotype : Int)
    (hv : w.getHandleInformation f = none) (hd : w.duplicateHandle f = Except.ok s)
    (hn : w.setNonblock s = none) (hg : w.getsockoptInt s = Except.ok sotype) :
    (∀ port addr, (w.getsockname s).1 = Sockaddr.inet4 port addr →
      NetEvent.newFD s Family.AF_INET sotype ∈ (newFileFD w f).2 ∧
        ∀ fd, (newFileFD w f).1 = Result.ok fd → fd.family = Family.AF_INET) ∧
    (∀ port zone addr, (w.getsockname s).1 = Sockaddr.inet6 port zone addr →
      NetEvent.newFD s Family.AF_INET6 sotype ∈ (newFileFD w f).2 ∧
        ∀ fd, (newFileFD w f).1 = Result.ok fd → fd.family = Family.AF_INET6) ∧
    (∀ name, (w.getsockname s).1 = Sockaddr.unix name →
      (newFileFD w f).1 = Result.err (GoError.errno Errno.EWINDOWS) ∧
        (fileConn w f).1 = Result.err (GoError.errno Errno.EWINDOWS) ∧
        (fileListener w f).1 = Result.err (GoError.errno Errno.EWINDOWS) ∧
        (filePacketConn w f).1 = Result.err (GoError.errno Errno.EWINDOWS)) ∧
    ((w.getsockname s).1 = Sockaddr.nil →
      (newFileFD w f).1 = Result.err (GoError.errno Errno.EPROTONOSUPPORT)) ∧
    (∀ tag, (w.getsockname s).1 = Sockaddr.other tag →
      (newFileFD w f).1 = Result.err (GoError.errno Errno.EPROTONOSUPPORT)) := by
  have hrun := newFileFD_after_getsockopt w f s sotype hv hd hn hg
  refine ⟨?_, ?_, ?_, ?_, ?_⟩
  · intro port addr hl
    rw [hl] at hrun
    rw [hrun]
    have ht := newFileFDTail_family w s Family.AF_INET sotype (Sockaddr.inet4 port addr)
      (w.getpeername s).1
    exact ⟨List.mem_append_right _ ht.1, ht.2⟩
  · intro port zone addr hl
    rw [hl] at hrun
    rw [hrun]
    have ht := newFileFDTail_family w s Family.AF_INET6 sotype
      (Sockaddr.inet6 port zone addr) (w.getpeername s).1
    exact ⟨List.mem_append_right _ ht.1, ht.2⟩
  · intro name hl
    rw [hl] at hrun
    simp [fileConn, fileListener, filePacketConn, hrun]
  · intro hl
    rw [hl] at hrun
    rw [hrun]
  · intro tag hl
    rw [hl] at hrun
    rw [hrun]

/-- C8, evaluated: all three adoption functions reject a Unix-domain socket with
`EWINDOWS`. -/
theorem newFileFD_classifies_local_sockaddr_witness :
    (fileConn wUnix 5).1 = Result.err (GoError.errno Errno.EWINDOWS) ∧
      (fileListener wUnix 5).1 = Result.err (GoError.errno Errno.EWINDOWS) ∧
      (filePacketConn wUnix 5).1 = Result.err (GoError.errno Errno.EWINDOWS) :=
  ((newFileFD_classifies_local_sockaddr wUnix 5 105 1 rfl rfl rfl rfl).2.2.1 "sock" rfl).2

/-! ## The best-effort address queries -/

/-- C9, refuted as stated: validation, duplication, set-nonblocking and getsockopt succeed
and only `Getsockname` fails, yet adoption returns an error (`EPROTONOSUPPORT`); with the
same socket and a successful `Getsockname` it succeeds. -/
theorem getsockname_failure_tolerated_counterexample :
    wNoLocal.getHandleInformation 5 = none ∧
      wNoLocal.duplicateHandle 5 = Except.ok 105 ∧
      wNoLocal.setNonblock 105 = none ∧
      wNoLocal.getsockoptInt 105 = Except.ok 1 ∧
      wNoLocal.getsockname 105 = (Sockaddr.nil, some (Errno.other 10022)) ∧
      (newFileFD wNoLocal 5).1 = Result.err (GoError.errno Errno.EPROTONOSUPPORT) ∧
      (newFileFD (wBound 1) 5).1 =
        Result.ok { sysfd := 105, family := Family.AF_INET, sotype := 1, net := "tcp",
                    laddr := Addr.tcp [127, 0, 0, 1] 8080, raddr := Addr.nil } :=
  ⟨rfl, rfl, rfl, rfl, rfl, by decide, by decide⟩

theorem newFileFDTail_withPeer (w : NetWorld) (x : Sockaddr × Option Errno) (s : Handle)
    (family : Family) (sotype : Int) (lsa rsa rsa2 : Sockaddr) :
    (∀ e, (newFileFDTail (w.withPeer x) s family sotype lsa rsa2).1 = Result.err e ↔
      (newFileFDTail w s family sotype lsa rsa).1 = Result.err e) ∧
    (∀ fd, (newFileFDTail w s family sotype lsa rsa).1 = Result.ok fd →
      (newFileFDTail (w.withPeer x) s family sotype lsa rsa2).1 =
        Result.ok { fd with raddr := w.addrFunc fd.family fd.sotype rsa2 }) := by
  rcases hf : w.newFDFails s family sotype with _ | e1
  · rcases hnw : (w.addrFunc family sotype lsa).network with _ | net
    · simp [newFileFDTail, newFD, NetWorld.withPeer, hf, hnw]
    · rcases hi : w.pfdInit s with _ | e2
      · simp only [newFileFDTail, newFD, NetWorld.withPeer, hf, hnw, hi, NetFD.setAddr]
        refine ⟨fun e => by simp, fun fd hfd => ?_⟩
        simp only [Result.ok.injEq] at hfd
        subst hfd
        rfl
      · simp [newFileFDTail, newFD, NetWorld.withPeer, hf, hnw, hi]
  · simp [newFileFDTail, newFD, NetWorld.withPeer, hf]

/-- C9, amended: when validation, duplication, set-nonblocking and getsockopt succeed, the
answer of `Getpeername` (in particular a failed query, which yields a nil address) never
decides whether adoption returns an error: replacing it by any other answer `x` leaves
every error return as it is and turns a success into the same success with the remote
address converted from `x`.  The error of `Getsockname` is discarded as well, but a nil
local address makes adoption return `EPROTONOSUPPORT`. -/
theorem newFileFD_tolerates_getpeername_failure (w : NetWorld) (f s : Handle) (sotype : Int)
    (hv : w.getHandleInformation f = none) (hd : w.duplicateHandle f = Except.ok s)
    (hn : w.setNonblock s = none) (hg : w.getsockoptInt s = Except.ok sotype) :
    (∀ x : Sockaddr × Option Errno,
      (∀ e, (newFileFD (w.withPeer x) f).1 = Result.err e ↔
        (newFileFD w f).1 = Result.err e) ∧
      (∀ fd, (newFileFD w f).1 = Result.ok fd →
        (newFileFD (w.withPeer x) f).1 =
          Result.ok { fd with raddr := w.addrFunc fd.family fd.sotype x.1 })) ∧
    ((w.getsockname s).1 = Sockaddr.nil →
      (newFileFD w f).1 = Result.err (GoError.errno Errno.EPROTONOSUPPORT)) := by
  have hrun := newFileFD_after_getsockopt w f s sotype hv hd hn hg
  constructor
  · intro x
    have hrun2 := newFileFD_after_getsockopt (w.withPeer x) f s sotype hv hd hn hg
    have hgs : (w.withPeer x).getsockname s = w.getsockname s := rfl
    have hgp : (w.withPeer x).getpeername s = x := rfl
    rw [hgs, hgp] at hrun2
    rw [hrun, hrun2]
    rcases hl : (w.getsockname s).1 with _ | ⟨port, addr⟩ | ⟨port, zone, addr⟩ | name | tag
    · simp
    · exact newFileFDTail_withPeer w x s Family.AF_INET sotype _ _ _
    · exact newFileFDTail_withPeer w x s Family.AF_INET6 sotype _ _ _
    · simp
    · simp
  · intro hl
    rw [hl] at hrun
    rw [hrun]

/-- C9 amended, evaluated: on the bound socket, whose `Getpeername` fails, adoption
succeeds with a nil remote address. -/
theorem newFileFD_tolerates_getpeername_failure_witness :
    (newFileFD ((wBound 1).withPeer (Sockaddr.nil, some (Errno.other 10057))) 5).1 =
      Result.ok { sysfd := 105, family := Family.AF_INET, sotype := 1, net := "tcp",
                  laddr := Addr.tcp [127, 0, 0, 1] 8080, raddr := Addr.nil } :=
  ((newFileFD_tolerates_getpeername_failure (wBound 1) 5 105 1 rfl rfl rfl rfl).1
      (Sockaddr.nil, some (Errno.other 10057))).2
    { sysfd := 105, family := Family.AF_INET, sotype := 1, net := "tcp",
      laddr := Addr.tcp [127, 0, 0, 1] 8080, raddr := Addr.nil } (by decide)

/-! ## Selection of the endpoint by the resolved local address -/

/-- C10: whenever `newFileFD` succeeds with descriptor `fd`, the result of each adoption
function is fixed by the concrete type of `fd.laddr`: a TCP address gives a stream
connection from `fileConn` and a listener from `fileListener`; a UDP address gives a
datagram connection from `fileConn` and `filePacketConn`; an IP address gives a raw-IP
connection from `fileConn` and `filePacketConn`; a Unix address gives `EWINDOWS` in all
three; every other combination gives `EINVAL` and no endpoint.  Hence `fileListener`
succeeds exactly for TCP addresses and `filePacketConn` exactly for UDP and IP ones. -/
theorem adopt_selects_by_local_addr (w : NetWorld) (f : Handle) (fd : NetFD)
    (hok : (newFileFD w f).1 = Result.ok fd) :
    (∀ ip port, fd.laddr = Addr.tcp ip port →
      (fileConn w f).1 = Result.ok (Conn.tcpConn fd) ∧
        (fileListener w f).1 = Result.ok (Listener.tcpListener fd) ∧
        (filePacketConn w f).1 = Result.err (GoError.errno Errno.EINVAL)) ∧
    (∀ ip port, fd.laddr = Addr.udp ip port →
      (fileConn w f).1 = Result.ok (Conn.udpConn fd) ∧
        (fileListener w f).1 = Result.err (GoError.errno Errno.EINVAL) ∧
        (filePacketConn w f).1 = Result.ok (PacketConn.udpConn fd)) ∧
    (∀ ip, fd.laddr = Addr.ip ip →
      (fileConn w f).1 = Result.ok (Conn.ipConn fd) ∧
        (fileListener w f).1 = Result.err (GoError.errno Errno.EINVAL) ∧
        (filePacketConn w f).1 = Result.ok (PacketConn.ipConn fd)) ∧
    (∀ name net, fd.laddr = Addr.unix name net →
      (fileConn w f).1 = Result.err (GoError.errno Errno.EWINDOWS) ∧
        (fileListener w f).1 = Result.err (GoError.errno Errno.EWINDOWS) ∧
        (filePacketConn w f).1 = Result.err (GoError.errno Errno.EWINDOWS)) ∧
    ((fd.laddr = Addr.nil ∨ ∃ network, fd.laddr = Addr.other network) →
      (fileConn w f).1 = Result.err (GoError.errno Errno.EINVAL) ∧
        (fileListener w f).1 = Result.err (GoError.errno Errno.EINVAL) ∧
        (filePacketConn w f).1 = Result.err (GoError.errno Errno.EINVAL)) ∧
    ((∃ l, (fileListener w f).1 = Result.ok l) ↔ ∃ ip port, fd.laddr = Addr.tcp ip port) ∧
    ((∃ c, (filePacketConn w f).1 = Result.ok c) ↔
      (∃ ip port, fd.laddr = Addr.udp ip port) ∨ ∃ ip, fd.laddr = Addr.ip ip) := by
  rcases hr : newFileFD w f with ⟨res, tr⟩
  rw [hr] at hok
  simp only at hok
  subst hok
  cases hla : fd.laddr <;> simp [fileConn, fileListener, filePacketConn, hr, hla]

/-- C10, evaluated: over a bound datagram socket `fileListener` fails with `EINVAL` while
`fileConn` and `filePacketConn` return the datagram connection. -/
theorem adopt_selects_by_local_addr_witness :
    (fileConn (wBound 2) 5).1 =
        Result.ok (Conn.udpConn
          { sysfd := 105, family := Family.AF_INET, sotype := 2, net := "udp",
            laddr := Addr.udp [127, 0, 0, 1] 8080, raddr := Addr.nil }) ∧
      (fileListener (wBound 2) 5).1 = Result.err (GoError.errno Errno.EINVAL) ∧
      (filePacketConn (wBound 2) 5).1 =
        Result.ok (PacketConn.udpConn
          { sysfd := 105, family := Family.AF_INET, sotype := 2, net := "udp",
            laddr := Addr.udp [127, 0, 0, 1] 8080, raddr := Addr.nil }) :=
  (adopt_selects_by_local_addr (wBound 2) 5
    { sysfd := 105, family := Family.AF_INET, sotype := 2, net := "udp",
      laddr := Addr.udp [127, 0, 0, 1] 8080, raddr := Addr.nil } (by decide)).2.1
    [127, 0, 0, 1] 8080 rfl

end GoNet
